import Mathlib

/-!
Shallow embedding of `src/server.py` of the symmetry-set visualizer backend.

Conventions used throughout:
* Python floats are modelled as exact rationals (`ℚ`); the decimal literals
  `1.5` and `1.15` of the source are the rationals `3/2` and `23/20`.
* `np.linalg.norm` is the square root of the squared distance; the
  floating-point square root is abstracted as a function parameter `sqrtFn`.
* The GUDHI calls `st.extend_filtration(); st.extended_persistence()` are the
  external persistence engine and are abstracted as a parameter
  `engine : SimplexTree → Except String EngineOut`; an `Except.error` models
  an exception raised inside the engine.
* A JSON object field that may be absent is an `Option` holding `none`;
  reading a missing key produces the `KeyError` that Python would raise,
  which the `except` clause of each route turns into a 500 response
  (`serverError`).  Index errors from out-of-range point indices are not
  modelled: list reads use `getD` with a default, which the claims below
  never exercise out of range.
-/

/-- A point of the `points` array: `{x, y, curveId?}`; a missing key is
`none`.  The curve id defaults to `0` via `pt.get('curveId', 0)`
(server.py line 91). -/
structure RawPoint where
  x : Option ℚ
  y : Option ℚ
  curveId : Option ℕ
deriving DecidableEq

/-- A center `{x, y}` as received in JSON; a missing key is `none`. -/
structure RawCenter where
  x : Option ℚ
  y : Option ℚ
deriving DecidableEq

/-- A single persistence class as yielded by the engine: GUDHI yields
`(dim, (birth, death))`; `death = none` models an infinite death
(`np.isinf(death)` in server.py line 52/181). -/
structure PersClass where
  dim : ℕ
  birth : ℚ
  death : Option ℚ
deriving DecidableEq

/-- The four diagrams returned by `st.extended_persistence()`:
`dgms[0]` Ordinary, `dgms[1]` Relative, `dgms[2]` Extended+,
`dgms[3]` Extended-. -/
structure EngineOut where
  ordinary : List PersClass
  relative : List PersClass
  extPlus : List PersClass
  extMinus : List PersClass
deriving DecidableEq

/-- State of a GUDHI `SimplexTree` restricted to the 1-skeleton: the inserted
vertices `(index, filtration)` and edges `((v1, v2), filtration)`, in
insertion order.  GUDHI's `insert` leaves an already-present simplex
unchanged, and a simplex is identified with its vertex set (so `[v, v]` is
the vertex `v` and `[v2, v1]` is the same edge as `[v1, v2]`). -/
structure SimplexTree where
  vertices : List (ℕ × ℚ)
  edges : List ((ℕ × ℕ) × ℚ)
deriving DecidableEq

def SimplexTree.empty : SimplexTree := ⟨[], []⟩

/-- `st.insert([i], filtration=f)`: a no-op when vertex `i` is present. -/
def SimplexTree.insertVertex (st : SimplexTree) (i : ℕ) (f : ℚ) : SimplexTree :=
  if st.vertices.any (fun v => v.1 == i) then st
  else { st with vertices := st.vertices ++ [(i, f)] }

/-- Whether the unordered edge `{v1, v2}` already occurs in the edge list. -/
def edgeMem (es : List ((ℕ × ℕ) × ℚ)) (v1 v2 : ℕ) : Bool :=
  es.any (fun e => (e.1.1 == v1 && e.1.2 == v2) || (e.1.1 == v2 && e.1.2 == v1))

/-- `st.insert([v1, v2], filtration=f)`: the simplex is its vertex set, so a
repeated vertex degenerates to a vertex insertion, and an edge already in the
tree (in either orientation) is left unchanged. -/
def SimplexTree.insertEdge (st : SimplexTree) (v1 v2 : ℕ) (f : ℚ) : SimplexTree :=
  if v1 = v2 then st.insertVertex v1 f
  else if edgeMem st.edges v1 v2 then st
  else { st with edges := st.edges ++ [((v1, v2), f)] }

/-- The inner loop of `build_simplex_tree` (server.py lines 31-37) for one
curve group: for each position `j`, connect `indices[j]` to
`indices[(j + 1) % m]` with filtration `max(distances[v1], distances[v2])`. -/
def insertCycleEdges (distances : List ℚ) (indices : List ℕ)
    (st : SimplexTree) : SimplexTree :=
  let m := indices.length
  (List.range m).foldl (fun st j =>
    let v1 := indices.getD j 0
    let v2 := indices.getD ((j + 1) % m) 0
    st.insertEdge v1 v2 (max (distances.getD v1 0) (distances.getD v2 0))) st

/-- `build_simplex_tree(coords, distances, curve_groups)` (server.py lines
21-39): insert a vertex per point with filtration `distances[i]`, then the
cycle edges of every curve group. -/
def build_simplex_tree (coords : List (ℚ × ℚ)) (distances : List ℚ)
    (curve_groups : List (ℕ × List ℕ)) : SimplexTree :=
  let n := coords.length
  let withVertices := (List.range n).foldl
    (fun st i => st.insertVertex i (distances.getD i 0)) SimplexTree.empty
  curve_groups.foldl (fun st g => insertCycleEdges distances g.2 st) withVertices

/-- One step of the grouping loop (server.py lines 89-94 / 145-150): append
index `i` to the group of `cid`, creating the group at the end on first
sight (Python dict insertion order). -/
def addToGroup (gs : List (ℕ × List ℕ)) (cid : ℕ) (i : ℕ) : List (ℕ × List ℕ) :=
  match gs with
  | [] => [(cid, [i])]
  | g :: rest => if g.1 = cid then (g.1, g.2 ++ [i]) :: rest else g :: addToGroup rest cid i

/-- The `curve_groups` dict: for `i, pt in enumerate(points)`, append `i` to
the group of `pt.get('curveId', 0)`. -/
def group_points (pts : List RawPoint) : List (ℕ × List ℕ) :=
  pts.enum.foldl (fun gs ip => addToGroup gs (ip.2.curveId.getD 0) ip.1) []

/-- Squared Euclidean distance, `np.sum((coords - center)**2, axis=1)` for
one point; the squares are written as self-multiplications so that the
kernel can evaluate the distance on rational literals. -/
def sqDist (p c : ℚ × ℚ) : ℚ :=
  (p.1 - c.1) * (p.1 - c.1) + (p.2 - c.2) * (p.2 - c.2)

/-- The per-point distance array for one center (server.py lines 100-103 /
154-158): squared distances, or their square roots (`np.linalg.norm`) with
the float square root abstracted as `sqrtFn`. -/
def compute_distances (use_squared : Bool) (sqrtFn : ℚ → ℚ)
    (coords : List (ℚ × ℚ)) (c : ℚ × ℚ) : List ℚ :=
  if use_squared then coords.map (fun p => sqDist p c)
  else coords.map (fun p => sqrtFn (sqDist p c))

/-- Total maximum of a list of rationals, `0` on the empty list (only used
through `np_max`, which refuses the empty list like `np.max`). -/
def listMax (l : List ℚ) : ℚ :=
  match l with
  | [] => 0
  | a :: rest => rest.foldl max a

/-- Total minimum, companion of `listMax`. -/
def listMin (l : List ℚ) : ℚ :=
  match l with
  | [] => 0
  | a :: rest => rest.foldl min a

/-- `np.max`, which raises on an empty (size-zero) array. -/
def np_max (l : List ℚ) : Except String ℚ :=
  match l with
  | [] => .error "zero-size array to reduction operation maximum which has no identity"
  | a :: rest => .ok (rest.foldl max a)

/-- `np.min`, which raises on an empty (size-zero) array. -/
def np_min (l : List ℚ) : Except String ℚ :=
  match l with
  | [] => .error "zero-size array to reduction operation minimum which has no identity"
  | a :: rest => .ok (rest.foldl min a)

/-- `d = float(death) if not is_inf else infinity_cap` (server.py line 53 /
184). -/
def capDeath (cap : ℚ) (death : Option ℚ) : ℚ :=
  match death with
  | some d => d
  | none => cap

/-- The `[b, d]` pair pushed into a single-center bucket. -/
def capPair (cap : ℚ) (c : PersClass) : ℚ × ℚ := (c.birth, capDeath cap c.death)

/-- The six single-center buckets `ord0 .. ext1` of
`process_extended_persistence`. -/
structure Buckets where
  ord0 : List (ℚ × ℚ)
  ord1 : List (ℚ × ℚ)
  rel0 : List (ℚ × ℚ)
  rel1 : List (ℚ × ℚ)
  ext0 : List (ℚ × ℚ)
  ext1 : List (ℚ × ℚ)
deriving DecidableEq

def Buckets.empty : Buckets := ⟨[], [], [], [], [], []⟩

/-- Routing of one class (server.py lines 56-61): diagram 0 is Ordinary,
1 is Relative, 2 and 3 are Extended+ and Extended-, and within a diagram dimension 0
goes to the `*0` bucket, everything else to `*1`. -/
def Buckets.push (bs : Buckets) (dgmIdx dim : ℕ) (bd : ℚ × ℚ) : Buckets :=
  if dgmIdx = 0 then
    if dim = 0 then { bs with ord0 := bs.ord0 ++ [bd] }
    else { bs with ord1 := bs.ord1 ++ [bd] }
  else if dgmIdx = 1 then
    if dim = 0 then { bs with rel0 := bs.rel0 ++ [bd] }
    else { bs with rel1 := bs.rel1 ++ [bd] }
  else
    if dim = 0 then { bs with ext0 := bs.ext0 ++ [bd] }
    else { bs with ext1 := bs.ext1 ++ [bd] }

/-- The inner loop over one diagram (server.py lines 51-61). -/
def processDgm (cap : ℚ) (dgmIdx : ℕ) (bs : Buckets) (dgm : List PersClass) : Buckets :=
  dgm.foldl (fun bs c => bs.push dgmIdx c.dim (capPair cap c)) bs

/-- The pure categorization part of `process_extended_persistence` (server.py
lines 42-63); the two GUDHI calls at lines 44-45 are the abstracted engine,
whose result `out` this consumes. -/
def process_extended_persistence (cap : ℚ) (out : EngineOut) : Buckets :=
  ([out.ordinary, out.relative, out.extPlus, out.extMinus].enum).foldl
    (fun bs p => processDgm cap p.1 bs p.2) Buckets.empty

/-- A vineyard entry (server.py lines 182-188). -/
structure VEntry where
  birth : ℚ
  death : ℚ
  centerIdx : ℕ
  isInfinite : Bool
  type : String
deriving DecidableEq

/-- `['ord', 'rel', 'ext', 'ext'][dgm_idx]`; the diagram index is always in
`0..3`, so the default is never read. -/
def typeTag (dgmIdx : ℕ) : String := ["ord", "rel", "ext", "ext"].getD dgmIdx ""

/-- The entry dict built at server.py lines 182-188. -/
def mkVEntry (cap : ℚ) (ci dgmIdx : ℕ) (c : PersClass) : VEntry :=
  { birth := c.birth
    death := capDeath cap c.death
    centerIdx := ci
    isInfinite := c.death.isNone
    type := typeTag dgmIdx }

/-- The six vineyard accumulators `ord0_all .. ext1_all`. -/
structure VBuckets where
  ord0 : List VEntry
  ord1 : List VEntry
  rel0 : List VEntry
  rel1 : List VEntry
  ext0 : List VEntry
  ext1 : List VEntry
deriving DecidableEq

def VBuckets.empty : VBuckets := ⟨[], [], [], [], [], []⟩

/-- Routing of one vineyard entry (server.py lines 190-195); same shape as
`Buckets.push`. -/
def VBuckets.push (bs : VBuckets) (dgmIdx dim : ℕ) (e : VEntry) : VBuckets :=
  if dgmIdx = 0 then
    if dim = 0 then { bs with ord0 := bs.ord0 ++ [e] }
    else { bs with ord1 := bs.ord1 ++ [e] }
  else if dgmIdx = 1 then
    if dim = 0 then { bs with rel0 := bs.rel0 ++ [e] }
    else { bs with rel1 := bs.rel1 ++ [e] }
  else
    if dim = 0 then { bs with ext0 := bs.ext0 ++ [e] }
    else { bs with ext1 := bs.ext1 ++ [e] }

/-- The inner loop over one diagram of one center (server.py lines 180-195). -/
def processVDgm (cap : ℚ) (ci dgmIdx : ℕ) (bs : VBuckets) (dgm : List PersClass) : VBuckets :=
  dgm.foldl (fun bs c => bs.push dgmIdx c.dim (mkVEntry cap ci dgmIdx c)) bs

/-- Processing of all four diagrams of center `ci` into the running
accumulators (server.py lines 179-195). -/
def processCenter (cap : ℚ) (ci : ℕ) (bs : VBuckets) (out : EngineOut) : VBuckets :=
  ([out.ordinary, out.relative, out.extPlus, out.extMinus].enum).foldl
    (fun bs p => processVDgm cap ci p.1 bs p.2) bs

/-- The per-center loop of `compute_vineyard` (server.py lines 168-195): for
each `ci`, build the simplex tree from row `ci` of the distance matrix,
invoke the engine, and append that center's entries; an engine exception
aborts the whole request. -/
def runCenters (engine : SimplexTree → Except String EngineOut) (cap : ℚ)
    (coords : List (ℚ × ℚ)) (curve_groups : List (ℕ × List ℕ))
    (rows : List (List ℚ)) (num_centers : ℕ) : Except String VBuckets :=
  (List.range num_centers).foldlM (fun bs ci => do
    let distances := rows.getD ci []
    let st := build_simplex_tree coords distances curve_groups
    let out ← engine st
    pure (processCenter cap ci bs out)) VBuckets.empty

/-- Reading `o['x'], o['y']` from a point or center dict; a missing key
raises the corresponding `KeyError`. -/
def extractXY (x y : Option ℚ) : Except String (ℚ × ℚ) :=
  match x with
  | none => .error "KeyError: x"
  | some px =>
    match y with
    | none => .error "KeyError: y"
    | some py => .ok (px, py)

/-- `coords = np.array([[p['x'], p['y']] for p in points])` (server.py line
97 / 141); the first missing key aborts. -/
def extract_coords (pts : List RawPoint) : Except String (List (ℚ × ℚ)) :=
  pts.mapM (fun p => extractXY p.x p.y)

/-- `centers_arr = np.array([[c['x'], c['y']] for c in centers])` (line 142). -/
def extract_centers (cs : List RawCenter) : Except String (List (ℚ × ℚ)) :=
  cs.mapM (fun c => extractXY c.x c.y)

/-- The JSON body of a `/persistence` request. -/
structure RawSingleReq where
  center : Option RawCenter
  points : Option (List RawPoint)
  use_squared_distance : Option Bool
deriving DecidableEq

/-- The JSON body of a `/vineyard` request. -/
structure RawVineReq where
  centers : Option (List RawCenter)
  points : Option (List RawPoint)
  use_squared_distance : Option Bool
deriving DecidableEq

/-- Outcome of the `/persistence` route: the 200 payload, the 400 validation
response, or the 500 response built by the `except` clause. -/
inductive SingleResult where
  | ok (buckets : Buckets) (r_min r_max : ℚ)
  | badRequest (msg : String)
  | serverError (msg : String)
deriving DecidableEq

/-- Outcome of the `/vineyard` route. -/
inductive VineResult where
  | ok (buckets : VBuckets) (infinityY : ℚ)
  | badRequest (msg : String)
  | serverError (msg : String)
deriving DecidableEq

/-- `compute_persistence` (server.py lines 72-121), with the float square
root and the GUDHI engine as parameters.  The evaluation order follows the
source: `center`, `points`, the metric flag, `center['x']`/`center['y']`,
the `n < 3` check, grouping, coordinate extraction, distances, `r_min`,
`r_max`, the cap `r_max * 1.5`, the tree, and the engine. -/
def compute_persistence (sqrtFn : ℚ → ℚ)
    (engine : SimplexTree → Except String EngineOut)
    (data : RawSingleReq) : SingleResult :=
  match data.center with
  | none => .serverError "KeyError: center"
  | some center =>
    match data.points with
    | none => .serverError "KeyError: points"
    | some points =>
      let use_squared := data.use_squared_distance.getD true
      match extractXY center.x center.y with
      | .error e => .serverError e
      | .ok c =>
        if points.length < 3 then .badRequest "Need at least 3 points"
        else
          let curve_groups := group_points points
          match extract_coords points with
          | .error e => .serverError e
          | .ok coords =>
            let distances := compute_distances use_squared sqrtFn coords c
            match np_min distances with
            | .error e => .serverError e
            | .ok r_min =>
              match np_max distances with
              | .error e => .serverError e
              | .ok r_max =>
                let infinity_cap := r_max * (3 / 2)
                let st := build_simplex_tree coords distances curve_groups
                match engine st with
                | .error e => .serverError e
                | .ok dgms =>
                  .ok (process_extended_persistence infinity_cap dgms) r_min r_max

/-- `compute_vineyard` (server.py lines 124-206): extraction, the `n < 3`
check, the batched distance matrix (one row per center), the single global
cap `max * 1.15` computed before the loop, and the per-center loop. -/
def compute_vineyard (sqrtFn : ℚ → ℚ)
    (engine : SimplexTree → Except String EngineOut)
    (data : RawVineReq) : VineResult :=
  match data.centers with
  | none => .serverError "KeyError: centers"
  | some centers =>
    match data.points with
    | none => .serverError "KeyError: points"
    | some points =>
      let use_squared := data.use_squared_distance.getD true
      let num_centers := centers.length
      if points.length < 3 then .badRequest "Need at least 3 points"
      else
        match extract_coords points with
        | .error e => .serverError e
        | .ok coords =>
          match extract_centers centers with
          | .error e => .serverError e
          | .ok centerCoords =>
            let curve_groups := group_points points
            let all_distances :=
              centerCoords.map (compute_distances use_squared sqrtFn coords)
            match np_max all_distances.flatten with
            | .error e => .serverError e
            | .ok max_dist_global =>
              let infinityY := max_dist_global * (23 / 20)
              match runCenters engine infinityY coords curve_groups
                  all_distances num_centers with
              | .error e => .serverError e
              | .ok vbs => .ok vbs infinityY

/-- All classes of an engine result, in diagram order. -/
def allClasses (out : EngineOut) : List PersClass :=
  out.ordinary ++ out.relative ++ out.extPlus ++ out.extMinus

/-- All pairs of the six single-center buckets. -/
def allPairs (bs : Buckets) : List (ℚ × ℚ) :=
  bs.ord0 ++ bs.ord1 ++ bs.rel0 ++ bs.rel1 ++ bs.ext0 ++ bs.ext1

/-- All entries of the six vineyard buckets. -/
def allVEntries (bs : VBuckets) : List VEntry :=
  bs.ord0 ++ bs.ord1 ++ bs.rel0 ++ bs.rel1 ++ bs.ext0 ++ bs.ext1

/-! ## Generic fold helpers -/

theorem foldl_preserves {α β : Type _} (P : β → Prop) (f : β → α → β) :
    ∀ (l : List α) (b : β), P b → (∀ b a, a ∈ l → P b → P (f b a)) → P (l.foldl f b) := by
  intro l
  induction l with
  | nil => intro b hb _; exact hb
  | cons x xs ih =>
    intro b hb hf
    exact ih _ (hf b x (by simp) hb) (fun b a ha hb => hf b a (by simp [ha]) hb)

/-! ## SimplexTree basic lemmas -/

@[simp] theorem insertVertex_edges (st : SimplexTree) (i : ℕ) (f : ℚ) :
    (st.insertVertex i f).edges = st.edges := by
  unfold SimplexTree.insertVertex
  split <;> rfl

theorem insertEdge_edges (st : SimplexTree) (v1 v2 : ℕ) (f : ℚ) :
    (st.insertEdge v1 v2 f).edges = st.edges ∨
      (st.insertEdge v1 v2 f).edges = st.edges ++ [((v1, v2), f)] ∧ v1 ≠ v2 := by
  unfold SimplexTree.insertEdge
  by_cases h : v1 = v2
  · simp [h]
  · by_cases hmem : edgeMem st.edges v1 v2
    · simp [h, hmem]
    · simp [h, hmem]

/-- Every edge ever present in the tree after `insertCycleEdges` either was
there before or is one of the inserted cycle edges, which carry the maximal
endpoint distance as filtration. -/
theorem insertCycleEdges_filtration (d : List ℚ) (ind : List ℕ) (st : SimplexTree)
    (h : ∀ e ∈ st.edges, e.2 = max (d.getD e.1.1 0) (d.getD e.1.2 0)) :
    ∀ e ∈ (insertCycleEdges d ind st).edges,
      e.2 = max (d.getD e.1.1 0) (d.getD e.1.2 0) := by
  unfold insertCycleEdges
  refine foldl_preserves
    (fun (st : SimplexTree) => ∀ e ∈ st.edges, e.2 = max (d.getD e.1.1 0) (d.getD e.1.2 0)) _ _ _ h ?_
  intro st j _ hst e he
  rcases insertEdge_edges st (ind.getD j 0) (ind.getD ((j + 1) % ind.length) 0)
    (max (d.getD (ind.getD j 0) 0) (d.getD (ind.getD ((j + 1) % ind.length) 0) 0)) with
    heq | ⟨heq, _⟩
  · rw [heq] at he; exact hst e he
  · rw [heq] at he
    rcases List.mem_append.1 he with h1 | h1
    · exact hst e h1
    · simp only [List.mem_singleton] at h1
      subst h1; rfl

/-- After the whole build, every edge's filtration is the maximum of the
distances of its two endpoints. -/
theorem build_edges_filtration (coords : List (ℚ × ℚ)) (d : List ℚ)
    (gs : List (ℕ × List ℕ)) :
    ∀ e ∈ (build_simplex_tree coords d gs).edges,
      e.2 = max (d.getD e.1.1 0) (d.getD e.1.2 0) := by
  unfold build_simplex_tree
  refine foldl_preserves
    (fun (st : SimplexTree) => ∀ e ∈ st.edges, e.2 = max (d.getD e.1.1 0) (d.getD e.1.2 0)) _ _ _ ?_ ?_
  · refine foldl_preserves
      (fun (st : SimplexTree) => ∀ e ∈ st.edges, e.2 = max (d.getD e.1.1 0) (d.getD e.1.2 0)) _ _ _ ?_ ?_
    · intro e he; simp [SimplexTree.empty] at he
    · intro st i _ hst e he
      rw [insertVertex_edges] at he; exact hst e he
  · intro st g _ hst
    exact insertCycleEdges_filtration d g.2 st hst

/-- `insertVertex` never disturbs what `find?` already returns for an
existing vertex, and establishes it for a fresh one. -/
theorem insertVertex_find_preserved (st : SimplexTree) (j : ℕ) (f : ℚ)
    (i : ℕ) (fi : ℚ)
    (h : st.vertices.find? (fun v => v.1 == i) = some (i, fi)) :
    (st.insertVertex j f).vertices.find? (fun v => v.1 == i) = some (i, fi) := by
  unfold SimplexTree.insertVertex
  split
  · exact h
  · simp only [List.find?_append, h, Option.or_some]

/-- The vertex-insertion phase records vertex `i` with filtration
`distances[i]` for every `i < n`. -/
theorem vertex_phase_find (d : List ℚ) (n : ℕ) :
    ∀ i < n, (((List.range n).foldl
        (fun st i => st.insertVertex i (d.getD i 0)) SimplexTree.empty).vertices.find?
        (fun v => v.1 == i)) = some (i, d.getD i 0) := by
  induction n with
  | zero => intro i hi; omega
  | succ n ih =>
    intro i hi
    rw [List.range_succ, List.foldl_append]
    rcases Nat.lt_or_ge i n with h | h
    · exact insertVertex_find_preserved _ _ _ _ _ (ih i h)
    · have hin : i = n := by omega
      subst hin
      set stn := (List.range i).foldl
        (fun st j => st.insertVertex j (d.getD j 0)) SimplexTree.empty with hstn
      have hver : ∀ v ∈ stn.vertices, v.1 < i := by
        rw [hstn]
        refine foldl_preserves (fun (st : SimplexTree) => ∀ v ∈ st.vertices, v.1 < i) _ _ _ ?_ ?_
        · intro v hv; simp [SimplexTree.empty] at hv
        · intro st j hj hst v hv
          unfold SimplexTree.insertVertex at hv
          split at hv
          · exact hst v hv
          · rcases List.mem_append.1 hv with h1 | h1
            · exact hst v h1
            · simp only [List.mem_singleton] at h1
              subst h1
              exact List.mem_range.1 hj
      simp only [List.foldl_cons, List.foldl_nil]
      unfold SimplexTree.insertVertex
      have hnone : stn.vertices.any (fun v => v.1 == i) = false := by
        rw [List.any_eq_false]
        intro v hv
        have := hver v hv
        simp only [beq_iff_eq]
        omega
      rw [if_neg (by simp [hnone])]
      simp only [List.find?_append]
      have hfindnone : stn.vertices.find? (fun v => v.1 == i) = none := by
        rw [List.find?_eq_none]
        intro v hv
        have := hver v hv
        simp only [beq_iff_eq]
        omega
      simp [hfindnone]

/-- `insertEdge` never disturbs what `find?` returns for a recorded vertex. -/
theorem insertEdge_find_preserved (st : SimplexTree) (v1 v2 : ℕ) (f : ℚ)
    (i : ℕ) (fi : ℚ)
    (h : st.vertices.find? (fun v => v.1 == i) = some (i, fi)) :
    (st.insertEdge v1 v2 f).vertices.find? (fun v => v.1 == i) = some (i, fi) := by
  unfold SimplexTree.insertEdge
  split
  · exact insertVertex_find_preserved _ _ _ _ _ h
  · split
    · exact h
    · exact h

/-- The edge phase never changes what `find?` returns for a recorded vertex:
edge insertions only ever re-insert (as a degenerate simplex) vertices, and
a fresh vertex is appended behind the existing ones. -/
theorem edge_phase_find_preserved (d : List ℚ) (gs : List (ℕ × List ℕ))
    (st : SimplexTree) (i : ℕ) (fi : ℚ)
    (h : st.vertices.find? (fun v => v.1 == i) = some (i, fi)) :
    ((gs.foldl (fun st g => insertCycleEdges d g.2 st) st).vertices.find?
      (fun v => v.1 == i)) = some (i, fi) := by
  refine foldl_preserves
    (fun (st : SimplexTree) => st.vertices.find? (fun v => v.1 == i) = some (i, fi)) _ _ _ h ?_
  intro st g _ hst
  unfold insertCycleEdges
  refine foldl_preserves
    (fun (st : SimplexTree) => st.vertices.find? (fun v => v.1 == i) = some (i, fi)) _ _ _ hst ?_
  intro st j _ hstj
  exact insertEdge_find_preserved st _ _ _ i fi hstj

/-- Combined vertex-filtration fact for the built tree. -/
theorem build_vertex_find (coords : List (ℚ × ℚ)) (d : List ℚ)
    (gs : List (ℕ × List ℕ)) :
    ∀ i < coords.length,
      ((build_simplex_tree coords d gs).vertices.find? (fun v => v.1 == i)) =
        some (i, d.getD i 0) := by
  intro i hi
  unfold build_simplex_tree
  exact edge_phase_find_preserved d gs _ i _ (vertex_phase_find d coords.length i hi)

/-! ## Cycle edge machinery (claim C2) -/

/-- The edge the loop body of `build_simplex_tree` inserts at position `j` of
a curve group. -/
def cycleEdge (d : List ℚ) (ind : List ℕ) (j : ℕ) : (ℕ × ℕ) × ℚ :=
  ((ind.getD j 0, ind.getD ((j + 1) % ind.length) 0),
    max (d.getD (ind.getD j 0) 0) (d.getD (ind.getD ((j + 1) % ind.length) 0) 0))

/-- The distinct edges a curve group of `m` indices actually contributes:
all `m` cycle edges when `m ≥ 3`, one edge when `m = 2` (the two inserted
connections coincide as unordered pairs) and none when `m ≤ 1`. -/
def groupNewEdges (d : List ℚ) (ind : List ℕ) : List ((ℕ × ℕ) × ℚ) :=
  if 3 ≤ ind.length then (List.range ind.length).map (cycleEdge d ind)
  else if ind.length = 2 then [cycleEdge d ind 0] else []

theorem mod_eq_self_dvd {j k m : ℕ} (h : (j + k) % m = j) : m ∣ k := by
  have hd := Nat.div_add_mod (j + k) m
  rw [h] at hd
  exact ⟨(j + k) / m, by omega⟩

theorem succ_mod_ne {j m : ℕ} (hm : 2 ≤ m) (_hj : j < m) : (j + 1) % m ≠ j := by
  intro h
  have := Nat.le_of_dvd (by norm_num) (mod_eq_self_dvd (k := 1) h)
  omega

theorem getD_mem_of_lt (l : List ℕ) (j : ℕ) (h : j < l.length) : l.getD j 0 ∈ l := by
  rw [List.getD_eq_getElem l 0 h]
  exact List.getElem_mem h

/-- Endpoints of a cycle edge at an in-range position belong to the group. -/
theorem cycleEdge_endpoints (d : List ℚ) (ind : List ℕ) (j : ℕ) (hj : j < ind.length) :
    (cycleEdge d ind j).1.1 ∈ ind ∧ (cycleEdge d ind j).1.2 ∈ ind := by
  have hm0 : 0 < ind.length := by omega
  exact ⟨getD_mem_of_lt ind j hj, getD_mem_of_lt ind _ (Nat.mod_lt _ hm0)⟩

/-- For a duplicate-free group of at least 3 indices, the cycle edges at two
distinct positions are distinct even as unordered pairs. -/
theorem cycleEdge_unordered_ne (ind : List ℕ) (hnd : ind.Nodup) (hm : 3 ≤ ind.length)
    {j j' : ℕ} (hj : j < ind.length) (hj' : j' < ind.length) (hne : j' ≠ j) :
    ¬ ((ind.getD j' 0 = ind.getD j 0 ∧
        ind.getD ((j' + 1) % ind.length) 0 = ind.getD ((j + 1) % ind.length) 0) ∨
       (ind.getD j' 0 = ind.getD ((j + 1) % ind.length) 0 ∧
        ind.getD ((j' + 1) % ind.length) 0 = ind.getD j 0)) := by
  have hm0 : 0 < ind.length := by omega
  have hj1 : (j + 1) % ind.length < ind.length := Nat.mod_lt _ hm0
  have hj'1 : (j' + 1) % ind.length < ind.length := Nat.mod_lt _ hm0
  rw [List.getD_eq_getElem ind 0 hj, List.getD_eq_getElem ind 0 hj',
      List.getD_eq_getElem ind 0 hj1, List.getD_eq_getElem ind 0 hj'1]
  rintro (⟨h1, _⟩ | ⟨h1, h2⟩)
  · exact hne (hnd.getElem_inj_iff.1 h1)
  · have e1 : j' = (j + 1) % ind.length := hnd.getElem_inj_iff.1 h1
    have e2 : (j' + 1) % ind.length = j := hnd.getElem_inj_iff.1 h2
    rw [e1, Nat.mod_add_mod] at e2
    have hdvd : ind.length ∣ 2 := mod_eq_self_dvd (j := j) (k := 2) e2
    have := Nat.le_of_dvd (by norm_num) hdvd
    omega

/-- A genuinely new edge is appended. -/
theorem insertEdge_append (st : SimplexTree) (v1 v2 : ℕ) (f : ℚ)
    (hne : v1 ≠ v2) (hdup : edgeMem st.edges v1 v2 = false) :
    (st.insertEdge v1 v2 f).edges = st.edges ++ [((v1, v2), f)] := by
  unfold SimplexTree.insertEdge
  rw [if_neg hne, if_neg (by rw [hdup]; simp)]

/-- Re-inserting a present unordered pair is a no-op. -/
theorem insertEdge_dup (st : SimplexTree) (v1 v2 : ℕ) (f : ℚ)
    (hne : v1 ≠ v2) (hdup : edgeMem st.edges v1 v2 = true) :
    st.insertEdge v1 v2 f = st := by
  unfold SimplexTree.insertEdge
  rw [if_neg hne, if_pos hdup]

/-- An edge list none of whose members has a first endpoint in `ind` cannot
contain an unordered pair with both endpoints in `ind`. -/
theorem edgeMem_false_of_outside (es : List ((ℕ × ℕ) × ℚ)) (ind : List ℕ)
    (h0 : ∀ e ∈ es, e.1.1 ∉ ind) {v1 v2 : ℕ} (h1 : v1 ∈ ind) (h2 : v2 ∈ ind) :
    edgeMem es v1 v2 = false := by
  unfold edgeMem
  rw [List.any_eq_false]
  intro e he
  simp only [Bool.or_eq_true, Bool.and_eq_true, beq_iff_eq]
  rintro (⟨hc, _⟩ | ⟨hc, _⟩)
  · exact h0 e he (hc ▸ h1)
  · exact h0 e he (hc ▸ h2)

/-- Auxiliary form of the `m ≥ 3` characterization: after `t` steps of the
cycle-edge loop the tree has gained exactly the first `t` cycle edges. -/
theorem insertCycleEdges_big_aux (d : List ℚ) (ind : List ℕ) (st : SimplexTree)
    (hnd : ind.Nodup) (hm : 3 ≤ ind.length)
    (h0 : ∀ e ∈ st.edges, e.1.1 ∉ ind) :
    ∀ t, t ≤ ind.length →
      ((List.range t).foldl (fun st j =>
        st.insertEdge (ind.getD j 0) (ind.getD ((j + 1) % ind.length) 0)
          (max (d.getD (ind.getD j 0) 0)
               (d.getD (ind.getD ((j + 1) % ind.length) 0) 0))) st).edges =
      st.edges ++ (List.range t).map (cycleEdge d ind) := by
  intro t
  induction t with
  | zero => intro _; simp
  | succ t ih =>
    intro ht
    have htlt : t < ind.length := by omega
    have hm0 : 0 < ind.length := by omega
    have ht1 : (t + 1) % ind.length < ind.length := Nat.mod_lt _ hm0
    have hE := ih (by omega)
    have hne : ind.getD t 0 ≠ ind.getD ((t + 1) % ind.length) 0 := by
      rw [List.getD_eq_getElem ind 0 htlt, List.getD_eq_getElem ind 0 ht1]
      intro hcon
      exact succ_mod_ne (by omega) htlt (hnd.getElem_inj_iff.1 hcon.symm)
    have hdup0 : edgeMem (st.edges ++ (List.range t).map (cycleEdge d ind))
        (ind.getD t 0) (ind.getD ((t + 1) % ind.length) 0) = false := by
      unfold edgeMem
      rw [List.any_eq_false]
      intro e he
      rcases List.mem_append.1 he with hpre | hnew
      · have he1 := h0 e hpre
        simp only [Bool.or_eq_true, Bool.and_eq_true, beq_iff_eq]
        rintro (⟨hc, _⟩ | ⟨hc, _⟩)
        · exact he1 (hc ▸ getD_mem_of_lt ind t htlt)
        · exact he1 (hc ▸ getD_mem_of_lt ind _ ht1)
      · rcases List.mem_map.1 hnew with ⟨j2, hj2, rfl⟩
        have hj2lt : j2 < t := List.mem_range.1 hj2
        have hcon := cycleEdge_unordered_ne ind hnd hm htlt (by omega)
          (show j2 ≠ t by omega)
        simp only [cycleEdge, Bool.or_eq_true, Bool.and_eq_true, beq_iff_eq]
        exact fun hor => hcon hor
    simp only [List.range_succ, List.foldl_append, List.foldl_cons, List.foldl_nil,
      List.map_append]
    rw [insertEdge_append _ _ _ _ hne (by rw [hE]; exact hdup0), hE]
    simp [cycleEdge, List.append_assoc]

/-- Full `m ≥ 3` characterization of one group's processing. -/
theorem insertCycleEdges_big (d : List ℚ) (ind : List ℕ) (st : SimplexTree)
    (hnd : ind.Nodup) (hm : 3 ≤ ind.length)
    (h0 : ∀ e ∈ st.edges, e.1.1 ∉ ind) :
    (insertCycleEdges d ind st).edges =
      st.edges ++ (List.range ind.length).map (cycleEdge d ind) :=
  insertCycleEdges_big_aux d ind st hnd hm h0 ind.length le_rfl

/-- Tree-level form of `insertEdge_append`. -/
theorem insertEdge_append_tree (st : SimplexTree) (v1 v2 : ℕ) (f : ℚ)
    (hne : v1 ≠ v2) (hdup : edgeMem st.edges v1 v2 = false) :
    st.insertEdge v1 v2 f = { st with edges := st.edges ++ [((v1, v2), f)] } := by
  unfold SimplexTree.insertEdge
  rw [if_neg hne, if_neg (by rw [hdup]; simp)]

/-- `m = 2` characterization: only one distinct edge is inserted; the second
loop iteration re-inserts the same unordered pair and is a no-op. -/
theorem insertCycleEdges_two (d : List ℚ) (ind : List ℕ) (st : SimplexTree)
    (hnd : ind.Nodup) (hm : ind.length = 2)
    (h0 : ∀ e ∈ st.edges, e.1.1 ∉ ind) :
    (insertCycleEdges d ind st).edges = st.edges ++ [cycleEdge d ind 0] := by
  rcases List.length_eq_two.1 hm with ⟨a, b, rfl⟩
  have hab : a ≠ b := by
    simp only [List.nodup_cons, List.mem_singleton, List.nodup_nil, and_true] at hnd
    exact hnd.1
  have ha : a ∈ [a, b] := by simp
  have hb : b ∈ [a, b] := by simp
  have hlen : ([a, b] : List ℕ).length = 2 := rfl
  have hrange : List.range 2 = [0, 1] := by decide
  simp only [insertCycleEdges, hlen, hrange, List.foldl_cons, List.foldl_nil]
  norm_num [List.getD_cons_zero, List.getD_cons_succ]
  rw [insertEdge_append_tree st a b _ hab (edgeMem_false_of_outside _ _ h0 ha hb)]
  have hdup2 : ∀ f : ℚ, edgeMem (st.edges ++ [((a, b), f)]) b a = true := by
    intro f
    unfold edgeMem
    rw [List.any_eq_true]
    exact ⟨((a, b), f), by simp⟩
  rw [insertEdge_dup _ b a _ (Ne.symm hab) (hdup2 _)]
  norm_num [cycleEdge, List.getD_cons_zero, List.getD_cons_succ]

/-- `m ≤ 1`: no edge at all is inserted (a single index yields the degenerate
simplex `[i, i]`, which is just the vertex). -/
theorem insertCycleEdges_small (d : List ℚ) (ind : List ℕ) (st : SimplexTree)
    (hm : ind.length ≤ 1) :
    (insertCycleEdges d ind st).edges = st.edges := by
  match ind, hm with
  | [], _ => rfl
  | [a], _ =>
    have hlen : ([a] : List ℕ).length = 1 := rfl
    have hrange : List.range 1 = [0] := by decide
    simp only [insertCycleEdges, hlen, hrange, List.foldl_cons, List.foldl_nil]
    norm_num [List.getD_cons_zero]
    unfold SimplexTree.insertEdge
    rw [if_pos rfl, insertVertex_edges]

/-- Unified characterization: processing one group appends exactly
`groupNewEdges`. -/
theorem insertCycleEdges_new (d : List ℚ) (ind : List ℕ) (st : SimplexTree)
    (hnd : ind.Nodup) (h0 : ∀ e ∈ st.edges, e.1.1 ∉ ind) :
    (insertCycleEdges d ind st).edges = st.edges ++ groupNewEdges d ind := by
  unfold groupNewEdges
  by_cases h3 : 3 ≤ ind.length
  · rw [if_pos h3]
    exact insertCycleEdges_big d ind st hnd h3 h0
  · rw [if_neg h3]
    by_cases h2 : ind.length = 2
    · rw [if_pos h2]
      exact insertCycleEdges_two d ind st hnd h2 h0
    · rw [if_neg h2, List.append_nil]
      exact insertCycleEdges_small d ind st (by omega)

/-- Endpoints of every contributed edge belong to the group. -/
theorem groupNewEdges_endpoints (d : List ℚ) (ind : List ℕ) :
    ∀ e ∈ groupNewEdges d ind, e.1.1 ∈ ind ∧ e.1.2 ∈ ind := by
  unfold groupNewEdges
  intro e he
  by_cases h3 : 3 ≤ ind.length
  · rw [if_pos h3] at he
    rcases List.mem_map.1 he with ⟨j, hj, rfl⟩
    exact cycleEdge_endpoints d ind j (List.mem_range.1 hj)
  · rw [if_neg h3] at he
    by_cases h2 : ind.length = 2
    · rw [if_pos h2] at he
      simp only [List.mem_singleton] at he
      subst he
      exact cycleEdge_endpoints d ind 0 (by omega)
    · rw [if_neg h2] at he
      simp at he

/-- Generic growth fact: processing a group only appends edges, each with
both endpoints in that group. -/
theorem insertCycleEdges_edges_sub (d : List ℚ) (ind : List ℕ) (st : SimplexTree) :
    ∃ new, (insertCycleEdges d ind st).edges = st.edges ++ new ∧
      ∀ e ∈ new, e.1.1 ∈ ind ∧ e.1.2 ∈ ind := by
  unfold insertCycleEdges
  refine foldl_preserves
    (fun (s : SimplexTree) => ∃ new, s.edges = st.edges ++ new ∧
      ∀ e ∈ new, e.1.1 ∈ ind ∧ e.1.2 ∈ ind) _ _ _ ⟨[], by simp⟩ ?_
  rintro s j hj ⟨new, hnew, hprop⟩
  have hjlt : j < ind.length := List.mem_range.1 hj
  have hm0 : 0 < ind.length := by omega
  rcases insertEdge_edges s (ind.getD j 0) (ind.getD ((j + 1) % ind.length) 0)
      (max (d.getD (ind.getD j 0) 0) (d.getD (ind.getD ((j + 1) % ind.length) 0) 0)) with
    heq | ⟨heq, _⟩
  · exact ⟨new, by rw [heq, hnew], hprop⟩
  · refine ⟨new ++ [((ind.getD j 0, ind.getD ((j + 1) % ind.length) 0),
      max (d.getD (ind.getD j 0) 0) (d.getD (ind.getD ((j + 1) % ind.length) 0) 0))],
      by rw [heq, hnew, List.append_assoc], ?_⟩
    intro e he
    rcases List.mem_append.1 he with h | h
    · exact hprop e h
    · simp only [List.mem_singleton] at h
      subst h
      exact ⟨getD_mem_of_lt ind j hjlt, getD_mem_of_lt ind _ (Nat.mod_lt _ hm0)⟩

/-- Folding a list of groups only appends edges, each lying inside one of the
processed groups. -/
theorem foldGroups_edges_sub (d : List ℚ) (L : List (ℕ × List ℕ)) (st : SimplexTree) :
    ∃ new, (L.foldl (fun st g => insertCycleEdges d g.2 st) st).edges = st.edges ++ new ∧
      ∀ e ∈ new, ∃ g ∈ L, e.1.1 ∈ g.2 ∧ e.1.2 ∈ g.2 := by
  induction L generalizing st with
  | nil => exact ⟨[], by simp, by simp⟩
  | cons g L ih =>
    rcases insertCycleEdges_edges_sub d g.2 st with ⟨n1, h1, hp1⟩
    rcases ih (insertCycleEdges d g.2 st) with ⟨n2, h2, hp2⟩
    refine ⟨n1 ++ n2, ?_, ?_⟩
    · rw [List.foldl_cons, h2, h1, List.append_assoc]
    · intro e he
      rcases List.mem_append.1 he with h | h
      · exact ⟨g, by simp, (hp1 e h).1, (hp1 e h).2⟩
      · rcases hp2 e h with ⟨g2, hg2, hx⟩
        exact ⟨g2, List.mem_cons_of_mem _ hg2, hx⟩

/-- The vertex-insertion phase creates no edges. -/
theorem vertex_phase_edges (d : List ℚ) (n : ℕ) :
    ((List.range n).foldl (fun st i => st.insertVertex i (d.getD i 0))
      SimplexTree.empty).edges = [] := by
  refine foldl_preserves (fun (st : SimplexTree) => st.edges = []) _ _ _ rfl ?_
  intro st i _ h
  rw [insertVertex_edges]
  exact h

/-- Master decomposition: in the built tree, the edges of a group `g` of a
pairwise-disjoint grouping form exactly `groupNewEdges`, surrounded by edges
that avoid `g` entirely. -/
theorem build_group_split (coords : List (ℚ × ℚ)) (d : List ℚ)
    (gs : List (ℕ × List ℕ))
    (hdisj : gs.Pairwise (fun g h => ∀ x ∈ g.2, x ∉ h.2))
    (hnds : ∀ g ∈ gs, g.2.Nodup) (g : ℕ × List ℕ) (hg : g ∈ gs) :
    ∃ pre post,
      (build_simplex_tree coords d gs).edges = pre ++ groupNewEdges d g.2 ++ post ∧
      (∀ e ∈ pre, e.1.1 ∉ g.2) ∧ (∀ e ∈ post, e.1.1 ∉ g.2) := by
  rcases List.append_of_mem hg with ⟨gsPre, gsPost, rfl⟩
  rw [List.pairwise_append] at hdisj
  rcases hdisj with ⟨_, hdisjCons, hcross⟩
  rw [List.pairwise_cons] at hdisjCons
  rcases hdisjCons with ⟨hgPost, _⟩
  have hbuild : (build_simplex_tree coords d (gsPre ++ g :: gsPost)).edges =
      ((g :: gsPost).foldl (fun st h => insertCycleEdges d h.2 st)
        (gsPre.foldl (fun st h => insertCycleEdges d h.2 st)
          ((List.range coords.length).foldl
            (fun st i => st.insertVertex i (d.getD i 0)) SimplexTree.empty))).edges := by
    unfold build_simplex_tree
    rw [List.foldl_append]
  set st0 := (List.range coords.length).foldl
    (fun st i => st.insertVertex i (d.getD i 0)) SimplexTree.empty with hst0
  set st1 := gsPre.foldl (fun st h => insertCycleEdges d h.2 st) st0 with hst1
  have hst1Out : ∀ e ∈ st1.edges, e.1.1 ∉ g.2 := by
    rcases foldGroups_edges_sub d gsPre st0 with ⟨new, hnew, hprop⟩
    rw [hst1, hnew]
    intro e he
    rcases List.mem_append.1 he with h | h
    · rw [hst0] at h
      rw [vertex_phase_edges] at h
      simp at h
    · rcases hprop e h with ⟨g2, hg2, hx1, _⟩
      exact fun hmem => hcross g2 hg2 g (by simp) e.1.1 hx1 hmem
  have hmid : (insertCycleEdges d g.2 st1).edges = st1.edges ++ groupNewEdges d g.2 :=
    insertCycleEdges_new d g.2 st1 (hnds g hg) hst1Out
  rcases foldGroups_edges_sub d gsPost (insertCycleEdges d g.2 st1) with
    ⟨post, hpost, hpostProp⟩
  refine ⟨st1.edges, post, ?_, hst1Out, ?_⟩
  · rw [hbuild, List.foldl_cons, hpost, hmid, List.append_assoc]
  · intro e he
    rcases hpostProp e he with ⟨g2, hg2, hx1, _⟩
    exact fun hmem => hgPost g2 hg2 e.1.1 hmem hx1

/-- Membership witness for `edgeMem`. -/
theorem edgeMem_of_mem (es : List ((ℕ × ℕ) × ℚ)) (e : (ℕ × ℕ) × ℚ) (he : e ∈ es)
    (v1 v2 : ℕ)
    (h : (e.1.1 = v1 ∧ e.1.2 = v2) ∨ (e.1.1 = v2 ∧ e.1.2 = v1)) :
    edgeMem es v1 v2 = true := by
  unfold edgeMem
  rw [List.any_eq_true]
  refine ⟨e, he, ?_⟩
  rcases h with ⟨h1, h2⟩ | ⟨h1, h2⟩ <;> simp [h1, h2]

/-- In the built tree, filtering the edges down to a group of a
pairwise-disjoint grouping yields exactly that group's contributed edges. -/
theorem build_group_filter (coords : List (ℚ × ℚ)) (d : List ℚ)
    (gs : List (ℕ × List ℕ))
    (hdisj : gs.Pairwise (fun g h => ∀ x ∈ g.2, x ∉ h.2))
    (hnds : ∀ g ∈ gs, g.2.Nodup) (g : ℕ × List ℕ) (hg : g ∈ gs) :
    (build_simplex_tree coords d gs).edges.filter
        (fun e => decide (e.1.1 ∈ g.2) && decide (e.1.2 ∈ g.2)) =
      groupNewEdges d g.2 := by
  obtain ⟨pre, post, heq, hpre, hpost⟩ := build_group_split coords d gs hdisj hnds g hg
  rw [heq, List.filter_append, List.filter_append]
  have h1 : pre.filter (fun e => decide (e.1.1 ∈ g.2) && decide (e.1.2 ∈ g.2)) = [] := by
    rw [List.filter_eq_nil_iff]
    intro e he
    simp only [Bool.and_eq_true, decide_eq_true_eq]
    rintro ⟨hc, _⟩
    exact hpre e he hc
  have h2 : post.filter (fun e => decide (e.1.1 ∈ g.2) && decide (e.1.2 ∈ g.2)) = [] := by
    rw [List.filter_eq_nil_iff]
    intro e he
    simp only [Bool.and_eq_true, decide_eq_true_eq]
    rintro ⟨hc, _⟩
    exact hpost e he hc
  have h3 : (groupNewEdges d g.2).filter
      (fun e => decide (e.1.1 ∈ g.2) && decide (e.1.2 ∈ g.2)) = groupNewEdges d g.2 := by
    rw [List.filter_eq_self]
    intro e he
    rcases groupNewEdges_endpoints d g.2 e he with ⟨hx1, hx2⟩
    simp [hx1, hx2]
  rw [h1, h2, h3, List.append_nil, List.nil_append]

/-- Every contributed group edge really is in the built tree. -/
theorem build_group_mem (coords : List (ℚ × ℚ)) (d : List ℚ)
    (gs : List (ℕ × List ℕ))
    (hdisj : gs.Pairwise (fun g h => ∀ x ∈ g.2, x ∉ h.2))
    (hnds : ∀ g ∈ gs, g.2.Nodup) (g : ℕ × List ℕ) (hg : g ∈ gs) :
    ∀ e ∈ groupNewEdges d g.2, e ∈ (build_simplex_tree coords d gs).edges := by
  obtain ⟨pre, post, heq, _, _⟩ := build_group_split coords d gs hdisj hnds g hg
  intro e he
  rw [heq]
  simp only [List.mem_append]
  exact Or.inl (Or.inr he)

/-- The builder does connect consecutive group members: for every position
`j` of a group with at least 2 points, the unordered edge from `indices[j]`
to `indices[(j + 1) % m]` is present in the built tree. -/
theorem build_group_connect (coords : List (ℚ × ℚ)) (d : List ℚ)
    (gs : List (ℕ × List ℕ))
    (hdisj : gs.Pairwise (fun g h => ∀ x ∈ g.2, x ∉ h.2))
    (hnds : ∀ g ∈ gs, g.2.Nodup) (g : ℕ × List ℕ) (hg : g ∈ gs)
    (hm2 : 2 ≤ g.2.length) :
    ∀ j < g.2.length, edgeMem (build_simplex_tree coords d gs).edges
      (g.2.getD j 0) (g.2.getD ((j + 1) % g.2.length) 0) = true := by
  intro j hj
  by_cases h3 : 3 ≤ g.2.length
  · have hmem : cycleEdge d g.2 j ∈ groupNewEdges d g.2 := by
      unfold groupNewEdges
      rw [if_pos h3]
      exact List.mem_map_of_mem _ (List.mem_range.2 hj)
    exact edgeMem_of_mem _ _ (build_group_mem coords d gs hdisj hnds g hg _ hmem) _ _
      (Or.inl ⟨rfl, rfl⟩)
  · have hm2e : g.2.length = 2 := by omega
    have hmem : cycleEdge d g.2 0 ∈ groupNewEdges d g.2 := by
      unfold groupNewEdges
      rw [if_neg h3, if_pos hm2e]
      simp
    have hintree := build_group_mem coords d gs hdisj hnds g hg _ hmem
    rcases (by omega : j = 0 ∨ j = 1) with hj0 | hj1
    · subst hj0
      exact edgeMem_of_mem _ _ hintree _ _ (Or.inl ⟨rfl, rfl⟩)
    · subst hj1
      refine edgeMem_of_mem _ _ hintree _ _ (Or.inr ⟨?_, ?_⟩)
      · show g.2.getD 0 0 = g.2.getD ((1 + 1) % g.2.length) 0
        rw [hm2e]
      · show g.2.getD ((0 + 1) % g.2.length) 0 = g.2.getD 1 0
        rw [hm2e]

/-! ## Grouping lemmas (claims C2, C8) -/

/-- Membership analysis of one grouping step. -/
theorem addToGroup_mem (gs : List (ℕ × List ℕ)) (cid i : ℕ) :
    ∀ g ∈ addToGroup gs cid i, ∀ x ∈ g.2,
      (∃ g0 ∈ gs, g0.1 = g.1 ∧ x ∈ g0.2) ∨ (x = i ∧ g.1 = cid) := by
  induction gs with
  | nil =>
    intro g hg x hx
    simp only [addToGroup, List.mem_singleton] at hg
    subst hg
    simp only [List.mem_singleton] at hx
    exact Or.inr ⟨hx, rfl⟩
  | cons g0 rest ih =>
    intro g hg x hx
    unfold addToGroup at hg
    by_cases hcid : g0.1 = cid
    · rw [if_pos hcid] at hg
      rcases List.mem_cons.1 hg with hg | hg
      · subst hg
        rcases List.mem_append.1 hx with hx2 | hx2
        · exact Or.inl ⟨g0, by simp, rfl, hx2⟩
        · simp only [List.mem_singleton] at hx2
          exact Or.inr ⟨hx2, hcid⟩
      · exact Or.inl ⟨g, List.mem_cons_of_mem _ hg, rfl, hx⟩
    · rw [if_neg hcid] at hg
      rcases List.mem_cons.1 hg with hg | hg
      · subst hg
        exact Or.inl ⟨g, by simp, rfl, hx⟩
      · rcases ih g hg x hx with ⟨g1, hg1, heq, hxg⟩ | hr
        · exact Or.inl ⟨g1, List.mem_cons_of_mem _ hg1, heq, hxg⟩
        · exact Or.inr hr

/-- Invariant of the grouping fold: every recorded index comes from an
enumerated point whose (defaulted) curve id is the group key. -/
theorem group_points_fold_mem (pts : List RawPoint) :
    ∀ (l : List (ℕ × RawPoint)) (gs0 : List (ℕ × List ℕ)),
      (∀ ip ∈ l, pts.get? ip.1 = some ip.2) →
      (∀ g ∈ gs0, ∀ i ∈ g.2, ∃ p, pts.get? i = some p ∧ p.curveId.getD 0 = g.1) →
      ∀ g ∈ l.foldl (fun gs ip => addToGroup gs (ip.2.curveId.getD 0) ip.1) gs0,
        ∀ i ∈ g.2, ∃ p, pts.get? i = some p ∧ p.curveId.getD 0 = g.1 := by
  intro l
  induction l with
  | nil => intro gs0 _ h0; exact h0
  | cons ip l ih =>
    intro gs0 hl h0
    rw [List.foldl_cons]
    refine ih _ (fun x hx => hl x (List.mem_cons_of_mem _ hx)) ?_
    intro g hg i hi
    rcases addToGroup_mem gs0 (ip.2.curveId.getD 0) ip.1 g hg i hi with
      ⟨g0, hg0, heq, hig0⟩ | ⟨hieq, hkey⟩
    · rcases h0 g0 hg0 i hig0 with ⟨p, hp1, hp2⟩
      exact ⟨p, hp1, heq ▸ hp2⟩
    · subst hieq
      exact ⟨ip.2, hl ip (by simp), hkey.symm⟩

/-- Every index of every `group_points` group refers to a point whose
(defaulted) curve id equals the group key. -/
theorem group_points_mem (pts : List RawPoint) :
    ∀ g ∈ group_points pts, ∀ i ∈ g.2,
      ∃ p, pts.get? i = some p ∧ p.curveId.getD 0 = g.1 := by
  unfold group_points
  refine group_points_fold_mem pts pts.enum [] ?_ ?_
  · intro ip hip
    rw [List.get?_eq_getElem?]
    exact List.mem_enum_iff_getElem?.1 hip
  · intro g hg
    simp at hg

/-- Any edge of a tree built from the `group_points` grouping joins two
points with equal (defaulted) curve ids. -/
theorem build_edges_same_curve (coords : List (ℚ × ℚ)) (d : List ℚ)
    (pts : List RawPoint) :
    ∀ e ∈ (build_simplex_tree coords d (group_points pts)).edges,
      ∃ p q, pts.get? e.1.1 = some p ∧ pts.get? e.1.2 = some q ∧
        p.curveId.getD 0 = q.curveId.getD 0 := by
  intro e he
  have hgrp : ∃ g ∈ group_points pts, e.1.1 ∈ g.2 ∧ e.1.2 ∈ g.2 := by
    simp only [build_simplex_tree] at he
    rcases foldGroups_edges_sub d (group_points pts)
      ((List.range coords.length).foldl
        (fun st i => st.insertVertex i (d.getD i 0)) SimplexTree.empty) with
      ⟨new, hnew, hprop⟩
    rw [hnew] at he
    rcases List.mem_append.1 he with h | h
    · rw [vertex_phase_edges] at h
      simp at h
    · exact hprop e h
  rcases hgrp with ⟨g, hg, h1, h2⟩
  rcases group_points_mem pts g hg _ h1 with ⟨p, hp1, hp2⟩
  rcases group_points_mem pts g hg _ h2 with ⟨q, hq1, hq2⟩
  exact ⟨p, q, hp1, hq1, by rw [hp2, hq2]⟩

/-- Keys after one grouping step. -/
theorem addToGroup_keys (gs : List (ℕ × List ℕ)) (cid i : ℕ) :
    (addToGroup gs cid i).map Prod.fst =
      if cid ∈ gs.map Prod.fst then gs.map Prod.fst
      else gs.map Prod.fst ++ [cid] := by
  induction gs with
  | nil => simp [addToGroup]
  | cons g rest ih =>
    unfold addToGroup
    by_cases h : g.1 = cid
    · rw [if_pos h]
      simp [h]
    · rw [if_neg h]
      simp only [List.map_cons]
      rw [ih]
      by_cases hmem : cid ∈ rest.map Prod.fst
      · rw [if_pos hmem, if_pos (List.mem_cons_of_mem _ hmem)]
      · rw [if_neg hmem, if_neg (by simp [hmem, Ne.symm h]), List.cons_append]

/-- One grouping step preserves duplicate-freeness of the keys. -/
theorem addToGroup_keys_nodup (gs : List (ℕ × List ℕ)) (cid i : ℕ)
    (h : (gs.map Prod.fst).Nodup) :
    ((addToGroup gs cid i).map Prod.fst).Nodup := by
  rw [addToGroup_keys]
  by_cases hmem : cid ∈ gs.map Prod.fst
  · rw [if_pos hmem]
    exact h
  · rw [if_neg hmem]
    simp [List.nodup_append, h, hmem]

/-- The keys of `group_points` are duplicate-free (one group per curve id). -/
theorem group_points_keys_nodup (pts : List RawPoint) :
    ((group_points pts).map Prod.fst).Nodup := by
  unfold group_points
  refine foldl_preserves
    (fun (gs : List (ℕ × List ℕ)) => (gs.map Prod.fst).Nodup) _ _ _ (by simp) ?_
  intro gs ip _ h
  exact addToGroup_keys_nodup _ _ _ h

/-- One grouping step at enumeration position `k` keeps every group
duplicate-free with all members below `k + 1`. -/
theorem addToGroup_bound_nodup (gs : List (ℕ × List ℕ)) (cid k : ℕ)
    (h : ∀ g ∈ gs, g.2.Nodup ∧ ∀ x ∈ g.2, x < k) :
    ∀ g ∈ addToGroup gs cid k, g.2.Nodup ∧ ∀ x ∈ g.2, x < k + 1 := by
  induction gs with
  | nil =>
    intro g hg
    simp only [addToGroup, List.mem_singleton] at hg
    subst hg
    refine ⟨List.nodup_singleton k, ?_⟩
    intro x hx
    simp only [List.mem_singleton] at hx
    omega
  | cons g0 rest ih =>
    intro g hg
    unfold addToGroup at hg
    by_cases hcid : g0.1 = cid
    · rw [if_pos hcid] at hg
      rcases List.mem_cons.1 hg with hg | hg
      · subst hg
        rcases h g0 (by simp) with ⟨hnd, hbnd⟩
        constructor
        · rw [List.nodup_append]
          refine ⟨hnd, List.nodup_singleton k, ?_⟩
          intro x hx hxk
          simp only [List.mem_singleton] at hxk
          subst hxk
          exact absurd (hbnd x hx) (by omega)
        · intro x hx
          rcases List.mem_append.1 hx with hx | hx
          · exact Nat.lt_succ_of_lt (hbnd x hx)
          · simp only [List.mem_singleton] at hx
            omega
      · rcases h g (List.mem_cons_of_mem _ hg) with ⟨hnd, hbnd⟩
        exact ⟨hnd, fun x hx => Nat.lt_succ_of_lt (hbnd x hx)⟩
    · rw [if_neg hcid] at hg
      rcases List.mem_cons.1 hg with hg | hg
      · subst hg
        rcases h g (by simp) with ⟨hnd, hbnd⟩
        exact ⟨hnd, fun x hx => Nat.lt_succ_of_lt (hbnd x hx)⟩
      · exact ih (fun g2 hg2 => h g2 (List.mem_cons_of_mem _ hg2)) g hg

/-- Fold form: processing the points enumerated from position `k` keeps
every group duplicate-free. -/
theorem group_points_fold_nodup (pts : List RawPoint) :
    ∀ (k : ℕ) (gs0 : List (ℕ × List ℕ)),
      (∀ g ∈ gs0, g.2.Nodup ∧ ∀ x ∈ g.2, x < k) →
      ∀ g ∈ (List.enumFrom k pts).foldl
          (fun gs ip => addToGroup gs (ip.2.curveId.getD 0) ip.1) gs0,
        g.2.Nodup := by
  induction pts with
  | nil =>
    intro k gs0 h g hg
    exact (h g hg).1
  | cons p rest ih =>
    intro k gs0 h g hg
    rw [List.enumFrom_cons, List.foldl_cons] at hg
    exact ih (k + 1) _ (addToGroup_bound_nodup gs0 _ k h) g hg

/-- Every group produced by `group_points` is duplicate-free. -/
theorem group_points_nodup (pts : List RawPoint) :
    ∀ g ∈ group_points pts, g.2.Nodup := by
  unfold group_points
  intro g hg
  refine group_points_fold_nodup pts 0 [] ?_ g ?_
  · intro g2 hg2
    simp at hg2
  · rw [show List.enumFrom 0 pts = pts.enum from rfl]
    exact hg

/-- Distinct groups of `group_points` never share an index. -/
theorem group_points_disjoint (pts : List RawPoint) :
    (group_points pts).Pairwise (fun g h => ∀ x ∈ g.2, x ∉ h.2) := by
  have hkeys := group_points_keys_nodup pts
  rw [List.Nodup, List.pairwise_map] at hkeys
  refine hkeys.imp_of_mem ?_
  intro g h hg hh hne x hxg hxh
  rcases group_points_mem pts g hg x hxg with ⟨p, hp1, hp2⟩
  rcases group_points_mem pts h hh x hxh with ⟨q, hq1, hq2⟩
  rw [hp1] at hq1
  injection hq1 with hq1
  subst hq1
  exact hne (by rw [← hp2, ← hq2])

/-! ## Aggregator characterization (claims C3, C4, C5, C6, C10) -/

theorem processDgm_zero (cap : ℚ) (bs : Buckets) (dgm : List PersClass) :
    processDgm cap 0 bs dgm =
      { bs with
        ord0 := bs.ord0 ++ (dgm.filter (fun c => c.dim == 0)).map (capPair cap)
        ord1 := bs.ord1 ++ (dgm.filter (fun c => c.dim != 0)).map (capPair cap) } := by
  induction dgm generalizing bs with
  | nil => simp [processDgm]
  | cons c cs ih =>
    unfold processDgm at ih ⊢
    rw [List.foldl_cons]
    rw [ih]
    by_cases h : c.dim = 0
    · simp [Buckets.push, h, List.append_assoc]
    · simp [Buckets.push, h, List.append_assoc]

theorem processDgm_one (cap : ℚ) (bs : Buckets) (dgm : List PersClass) :
    processDgm cap 1 bs dgm =
      { bs with
        rel0 := bs.rel0 ++ (dgm.filter (fun c => c.dim == 0)).map (capPair cap)
        rel1 := bs.rel1 ++ (dgm.filter (fun c => c.dim != 0)).map (capPair cap) } := by
  induction dgm generalizing bs with
  | nil => simp [processDgm]
  | cons c cs ih =>
    unfold processDgm at ih ⊢
    rw [List.foldl_cons]
    rw [ih]
    by_cases h : c.dim = 0
    · simp [Buckets.push, h, List.append_assoc]
    · simp [Buckets.push, h, List.append_assoc]

theorem processDgm_ext (cap : ℚ) (dgmIdx : ℕ) (h0 : dgmIdx ≠ 0) (h1 : dgmIdx ≠ 1)
    (bs : Buckets) (dgm : List PersClass) :
    processDgm cap dgmIdx bs dgm =
      { bs with
        ext0 := bs.ext0 ++ (dgm.filter (fun c => c.dim == 0)).map (capPair cap)
        ext1 := bs.ext1 ++ (dgm.filter (fun c => c.dim != 0)).map (capPair cap) } := by
  induction dgm generalizing bs with
  | nil => simp [processDgm]
  | cons c cs ih =>
    unfold processDgm at ih ⊢
    rw [List.foldl_cons]
    rw [ih]
    by_cases h : c.dim = 0
    · simp [Buckets.push, h, h0, h1, List.append_assoc]
    · simp [Buckets.push, h, h0, h1, List.append_assoc]

/-- Closed form of the single-center aggregator: each bucket is the
order-preserving image of the matching classes. -/
theorem process_extended_persistence_eq (cap : ℚ) (out : EngineOut) :
    process_extended_persistence cap out =
      { ord0 := (out.ordinary.filter (fun c => c.dim == 0)).map (capPair cap)
        ord1 := (out.ordinary.filter (fun c => c.dim != 0)).map (capPair cap)
        rel0 := (out.relative.filter (fun c => c.dim == 0)).map (capPair cap)
        rel1 := (out.relative.filter (fun c => c.dim != 0)).map (capPair cap)
        ext0 := (out.extPlus.filter (fun c => c.dim == 0)).map (capPair cap) ++
          (out.extMinus.filter (fun c => c.dim == 0)).map (capPair cap)
        ext1 := (out.extPlus.filter (fun c => c.dim != 0)).map (capPair cap) ++
          (out.extMinus.filter (fun c => c.dim != 0)).map (capPair cap) } := by
  unfold process_extended_persistence
  rw [show ([out.ordinary, out.relative, out.extPlus, out.extMinus].enum) =
    [(0, out.ordinary), (1, out.relative), (2, out.extPlus), (3, out.extMinus)] from rfl]
  simp only [List.foldl_cons, List.foldl_nil]
  rw [processDgm_zero, processDgm_one, processDgm_ext cap 2 (by omega) (by omega),
    processDgm_ext cap 3 (by omega) (by omega)]
  simp [Buckets.empty]

theorem processVDgm_zero (cap : ℚ) (ci : ℕ) (bs : VBuckets) (dgm : List PersClass) :
    processVDgm cap ci 0 bs dgm =
      { bs with
        ord0 := bs.ord0 ++ (dgm.filter (fun c => c.dim == 0)).map (mkVEntry cap ci 0)
        ord1 := bs.ord1 ++ (dgm.filter (fun c => c.dim != 0)).map (mkVEntry cap ci 0) } := by
  induction dgm generalizing bs with
  | nil => simp [processVDgm]
  | cons c cs ih =>
    unfold processVDgm at ih ⊢
    rw [List.foldl_cons]
    rw [ih]
    by_cases h : c.dim = 0
    · simp [VBuckets.push, h, List.append_assoc]
    · simp [VBuckets.push, h, List.append_assoc]

theorem processVDgm_one (cap : ℚ) (ci : ℕ) (bs : VBuckets) (dgm : List PersClass) :
    processVDgm cap ci 1 bs dgm =
      { bs with
        rel0 := bs.rel0 ++ (dgm.filter (fun c => c.dim == 0)).map (mkVEntry cap ci 1)
        rel1 := bs.rel1 ++ (dgm.filter (fun c => c.dim != 0)).map (mkVEntry cap ci 1) } := by
  induction dgm generalizing bs with
  | nil => simp [processVDgm]
  | cons c cs ih =>
    unfold processVDgm at ih ⊢
    rw [List.foldl_cons]
    rw [ih]
    by_cases h : c.dim = 0
    · simp [VBuckets.push, h, List.append_assoc]
    · simp [VBuckets.push, h, List.append_assoc]

theorem processVDgm_ext (cap : ℚ) (ci dgmIdx : ℕ) (h0 : dgmIdx ≠ 0) (h1 : dgmIdx ≠ 1)
    (bs : VBuckets) (dgm : List PersClass) :
    processVDgm cap ci dgmIdx bs dgm =
      { bs with
        ext0 := bs.ext0 ++ (dgm.filter (fun c => c.dim == 0)).map (mkVEntry cap ci dgmIdx)
        ext1 := bs.ext1 ++ (dgm.filter (fun c => c.dim != 0)).map (mkVEntry cap ci dgmIdx) } := by
  induction dgm generalizing bs with
  | nil => simp [processVDgm]
  | cons c cs ih =>
    unfold processVDgm at ih ⊢
    rw [List.foldl_cons]
    rw [ih]
    by_cases h : c.dim = 0
    · simp [VBuckets.push, h, h0, h1, List.append_assoc]
    · simp [VBuckets.push, h, h0, h1, List.append_assoc]

/-- Closed form of one center's aggregation into running accumulators. -/
theorem processCenter_eq (cap : ℚ) (ci : ℕ) (bs : VBuckets) (out : EngineOut) :
    processCenter cap ci bs out =
      { ord0 := bs.ord0 ++ (out.ordinary.filter (fun c => c.dim == 0)).map (mkVEntry cap ci 0)
        ord1 := bs.ord1 ++ (out.ordinary.filter (fun c => c.dim != 0)).map (mkVEntry cap ci 0)
        rel0 := bs.rel0 ++ (out.relative.filter (fun c => c.dim == 0)).map (mkVEntry cap ci 1)
        rel1 := bs.rel1 ++ (out.relative.filter (fun c => c.dim != 0)).map (mkVEntry cap ci 1)
        ext0 := bs.ext0 ++ ((out.extPlus.filter (fun c => c.dim == 0)).map (mkVEntry cap ci 2) ++
          (out.extMinus.filter (fun c => c.dim == 0)).map (mkVEntry cap ci 3))
        ext1 := bs.ext1 ++ ((out.extPlus.filter (fun c => c.dim != 0)).map (mkVEntry cap ci 2) ++
          (out.extMinus.filter (fun c => c.dim != 0)).map (mkVEntry cap ci 3)) } := by
  unfold processCenter
  rw [show ([out.ordinary, out.relative, out.extPlus, out.extMinus].enum) =
    [(0, out.ordinary), (1, out.relative), (2, out.extPlus), (3, out.extMinus)] from rfl]
  simp only [List.foldl_cons, List.foldl_nil]
  rw [processVDgm_zero, processVDgm_one, processVDgm_ext cap ci 2 (by omega) (by omega),
    processVDgm_ext cap ci 3 (by omega) (by omega)]
  simp [List.append_assoc]

/-- One center's aggregation starting from empty accumulators (the entries
that center contributes). -/
def centerBuckets (cap : ℚ) (ci : ℕ) (out : EngineOut) : VBuckets :=
  processCenter cap ci VBuckets.empty out

/-- Fieldwise concatenation of vineyard buckets. -/
def VBuckets.app (a b : VBuckets) : VBuckets :=
  ⟨a.ord0 ++ b.ord0, a.ord1 ++ b.ord1, a.rel0 ++ b.rel0,
   a.rel1 ++ b.rel1, a.ext0 ++ b.ext0, a.ext1 ++ b.ext1⟩

theorem VBuckets.app_empty_left (a : VBuckets) : VBuckets.app VBuckets.empty a = a := by
  simp [VBuckets.app, VBuckets.empty]

theorem VBuckets.app_assoc (a b c : VBuckets) :
    VBuckets.app (VBuckets.app a b) c = VBuckets.app a (VBuckets.app b c) := by
  simp [VBuckets.app, List.append_assoc]

/-- Accumulator splitting for one center. -/
theorem processCenter_app (cap : ℚ) (ci : ℕ) (bs : VBuckets) (out : EngineOut) :
    processCenter cap ci bs out = VBuckets.app bs (centerBuckets cap ci out) := by
  rw [processCenter_eq, centerBuckets, processCenter_eq]
  simp [VBuckets.app, VBuckets.empty]

/-- The pure per-center loop of `compute_vineyard`, with the engine results
given as a function of the center index: every iteration uses the one shared
cap. -/
def vineyardFold (cap : ℚ) (outs : ℕ → EngineOut) (k : ℕ) : VBuckets :=
  (List.range k).foldl (fun bs ci => processCenter cap ci bs (outs ci)) VBuckets.empty

theorem vineyardFold_succ (cap : ℚ) (outs : ℕ → EngineOut) (k : ℕ) :
    vineyardFold cap outs (k + 1) =
      processCenter cap k (vineyardFold cap outs k) (outs k) := by
  unfold vineyardFold
  rw [List.range_succ, List.foldl_append, List.foldl_cons, List.foldl_nil]

/-- Join form of the loop: each bucket is the concatenation, in center
order, of the per-center contributions. -/
theorem vineyardFold_join (cap : ℚ) (outs : ℕ → EngineOut) (k : ℕ)
    (sel : VBuckets → List VEntry)
    (happ : ∀ a b, sel (VBuckets.app a b) = sel a ++ sel b)
    (hemp : sel VBuckets.empty = []) :
    sel (vineyardFold cap outs k) =
      ((List.range k).map (fun ci => sel (centerBuckets cap ci (outs ci)))).flatten := by
  induction k with
  | zero => simp [vineyardFold, hemp]
  | succ k ih =>
    rw [vineyardFold_succ, processCenter_app, happ, ih, List.range_succ,
      List.map_append, List.flatten_append]
    simp

/-- Every entry a center contributes is `mkVEntry` of one of that center's
classes. -/
theorem centerBuckets_entries (cap : ℚ) (ci : ℕ) (out : EngineOut) :
    ∀ e ∈ allVEntries (centerBuckets cap ci out),
      ∃ dgmIdx c, dgmIdx ≤ 3 ∧ c ∈ allClasses out ∧ e = mkVEntry cap ci dgmIdx c := by
  intro e he
  unfold centerBuckets allVEntries at he
  rw [processCenter_eq] at he
  simp only [VBuckets.empty, List.nil_append, List.mem_append] at he
  rcases he with ((((h | h) | h) | h) | h | h) | h | h
  · rcases List.mem_map.1 h with ⟨c, hc, rfl⟩
    exact ⟨0, c, by omega, by simp [allClasses, (List.mem_filter.1 hc).1], rfl⟩
  · rcases List.mem_map.1 h with ⟨c, hc, rfl⟩
    exact ⟨0, c, by omega, by simp [allClasses, (List.mem_filter.1 hc).1], rfl⟩
  · rcases List.mem_map.1 h with ⟨c, hc, rfl⟩
    exact ⟨1, c, by omega, by simp [allClasses, (List.mem_filter.1 hc).1], rfl⟩
  · rcases List.mem_map.1 h with ⟨c, hc, rfl⟩
    exact ⟨1, c, by omega, by simp [allClasses, (List.mem_filter.1 hc).1], rfl⟩
  · rcases List.mem_map.1 h with ⟨c, hc, rfl⟩
    exact ⟨2, c, by omega, by simp [allClasses, (List.mem_filter.1 hc).1], rfl⟩
  · rcases List.mem_map.1 h with ⟨c, hc, rfl⟩
    exact ⟨3, c, by omega, by simp [allClasses, (List.mem_filter.1 hc).1], rfl⟩
  · rcases List.mem_map.1 h with ⟨c, hc, rfl⟩
    exact ⟨2, c, by omega, by simp [allClasses, (List.mem_filter.1 hc).1], rfl⟩
  · rcases List.mem_map.1 h with ⟨c, hc, rfl⟩
    exact ⟨3, c, by omega, by simp [allClasses, (List.mem_filter.1 hc).1], rfl⟩

/-- Each entry of a center's aggregation carries that center's index and one
of the three type tags. -/
theorem centerBuckets_centerIdx_type (cap : ℚ) (ci : ℕ) (out : EngineOut) :
    ∀ e ∈ allVEntries (centerBuckets cap ci out),
      e.centerIdx = ci ∧ (e.type = "ord" ∨ e.type = "rel" ∨ e.type = "ext") := by
  intro e he
  rcases centerBuckets_entries cap ci out e he with ⟨idx, c, hidx, _, rfl⟩
  refine ⟨rfl, ?_⟩
  unfold mkVEntry typeTag
  interval_cases idx <;> simp

/-- Death-value behaviour of one center's aggregation (claim C4 support):
infinite deaths are reported exactly at the cap and flagged; finite deaths
pass through; and if every finite death of the engine lies strictly below
the cap, every reported death is at most the cap, with equality exactly on
the flagged entries. -/
theorem centerBuckets_death_spec (cap : ℚ) (ci : ℕ) (out : EngineOut)
    (hfin : ∀ c ∈ allClasses out, ∀ dv, c.death = some dv → dv < cap) :
    ∀ e ∈ allVEntries (centerBuckets cap ci out),
      e.death ≤ cap ∧ (e.death = cap ↔ e.isInfinite = true) ∧
      (e.isInfinite = true → e.death = cap) ∧
      (e.isInfinite = false → ∃ c ∈ allClasses out,
        c.death = some e.death ∧ c.birth = e.birth) := by
  intro e he
  rcases centerBuckets_entries cap ci out e he with ⟨idx, c, _, hc, rfl⟩
  cases hd : c.death with
  | none => simp [mkVEntry, capDeath, hd]
  | some dv =>
    have hlt := hfin c hc dv hd
    refine ⟨?_, ?_, ?_, ?_⟩
    · simp only [mkVEntry, capDeath, hd]
      exact le_of_lt hlt
    · simp only [mkVEntry, capDeath, hd, Option.isNone_some]
      constructor
      · intro heq
        exact absurd heq (ne_of_lt hlt)
      · intro hcon
        cases hcon
    · simp [mkVEntry, hd]
    · intro _
      exact ⟨c, hc, by simp [mkVEntry, capDeath, hd]⟩

/-- Every pair reported by the single-center aggregator is `capPair` of one
of the classes. -/
theorem process_pairs_entries (cap : ℚ) (out : EngineOut) :
    ∀ p ∈ allPairs (process_extended_persistence cap out),
      ∃ c ∈ allClasses out, p = capPair cap c := by
  intro p hp
  unfold allPairs at hp
  rw [process_extended_persistence_eq] at hp
  simp only [List.mem_append] at hp
  rcases hp with ((((h | h) | h) | h) | h | h) | h | h <;>
  · rcases List.mem_map.1 h with ⟨c, hc, rfl⟩
    exact ⟨c, by simp [allClasses, (List.mem_filter.1 hc).1], rfl⟩

/-- Single-center form of the death bound (claim C4 support). -/
theorem process_pairs_death_le (cap : ℚ) (out : EngineOut)
    (hfin : ∀ c ∈ allClasses out, ∀ dv, c.death = some dv → dv < cap) :
    ∀ p ∈ allPairs (process_extended_persistence cap out), p.2 ≤ cap := by
  intro p hp
  rcases process_pairs_entries cap out p hp with ⟨c, hc, rfl⟩
  cases hd : c.death with
  | none => simp [capPair, capDeath, hd]
  | some dv =>
    simp only [capPair, capDeath, hd]
    exact le_of_lt (hfin c hc dv hd)

/-- Filtering a center-ordered flattening down to one center index recovers
exactly that center's block. -/
theorem filter_flatten_centerIdx (f : ℕ → List VEntry) (k ci : ℕ) (hci : ci < k)
    (hf : ∀ j, j < k → ∀ e ∈ f j, e.centerIdx = j) :
    (((List.range k).map f).flatten).filter (fun e => e.centerIdx == ci) = f ci := by
  induction k with
  | zero => omega
  | succ k ih =>
    rw [List.range_succ, List.map_append, List.flatten_append, List.filter_append]
    simp only [List.map_cons, List.map_nil, List.flatten_cons, List.flatten_nil,
      List.append_nil]
    by_cases hcik : ci = k
    · subst hcik
      have h1 : (((List.range ci).map f).flatten).filter
          (fun e => e.centerIdx == ci) = [] := by
        rw [List.filter_eq_nil_iff]
        intro e he
        rcases List.mem_flatten.1 he with ⟨l, hl, hel⟩
        rcases List.mem_map.1 hl with ⟨j, hj, rfl⟩
        have hjlt : j < ci := List.mem_range.1 hj
        have := hf j (by omega) e hel
        simp only [beq_iff_eq, this]
        omega
      have h2 : (f ci).filter (fun e => e.centerIdx == ci) = f ci := by
        rw [List.filter_eq_self]
        intro e he
        simp [hf ci (by omega) e he]
      rw [h1, h2, List.nil_append]
    · have hcik2 : ci < k := by omega
      rw [ih hcik2 (fun j hj => hf j (by omega))]
      have h2 : (f k).filter (fun e => e.centerIdx == ci) = [] := by
        rw [List.filter_eq_nil_iff]
        intro e he
        have := hf k (by omega) e he
        simp only [beq_iff_eq, this]
        omega
      rw [h2, List.append_nil]

/-- A center-ordered flattening is sorted by center index. -/
theorem flatten_pairwise_centerIdx (f : ℕ → List VEntry) (k : ℕ)
    (hf : ∀ j, j < k → ∀ e ∈ f j, e.centerIdx = j) :
    ((List.range k).map f).flatten.Pairwise
      (fun a b => a.centerIdx ≤ b.centerIdx) := by
  induction k with
  | zero => simp
  | succ k ih =>
    rw [List.range_succ, List.map_append, List.flatten_append, List.pairwise_append]
    refine ⟨ih (fun j hj => hf j (by omega)), ?_, ?_⟩
    · simp only [List.map_cons, List.map_nil, List.flatten_cons, List.flatten_nil,
        List.append_nil]
      refine List.pairwise_iff_forall_sublist.2 ?_
      intro a b hsub
      have hmems := hsub.subset
      have ha : a ∈ f k := hmems (by simp)
      have hb : b ∈ f k := hmems (by simp)
      rw [hf k (by omega) a ha, hf k (by omega) b hb]
    · intro a ha b hb
      rcases List.mem_flatten.1 ha with ⟨l, hl, hal⟩
      rcases List.mem_map.1 hl with ⟨j, hj, rfl⟩
      have hjlt : j < k := List.mem_range.1 hj
      simp only [List.map_cons, List.map_nil, List.flatten_cons, List.flatten_nil,
        List.append_nil] at hb
      rw [hf j (by omega) a hal, hf k (by omega) b hb]
      omega

/-- Entries of a fold bucket come from some center's block. -/
theorem vineyardFold_field_mem (cap : ℚ) (outs : ℕ → EngineOut) (k : ℕ)
    (sel : VBuckets → List VEntry)
    (happ : ∀ a b, sel (VBuckets.app a b) = sel a ++ sel b)
    (hemp : sel VBuckets.empty = []) :
    ∀ e ∈ sel (vineyardFold cap outs k),
      ∃ j, j < k ∧ e ∈ sel (centerBuckets cap j (outs j)) := by
  intro e he
  rw [vineyardFold_join cap outs k sel happ hemp] at he
  rcases List.mem_flatten.1 he with ⟨l, hl, hel⟩
  rcases List.mem_map.1 hl with ⟨j, hj, rfl⟩
  exact ⟨j, List.mem_range.1 hj, hel⟩

/-- Conversely, each center's block embeds in the fold bucket. -/
theorem vineyardFold_field_mem_rev (cap : ℚ) (outs : ℕ → EngineOut) (k : ℕ)
    (sel : VBuckets → List VEntry)
    (happ : ∀ a b, sel (VBuckets.app a b) = sel a ++ sel b)
    (hemp : sel VBuckets.empty = []) (j : ℕ) (hj : j < k) :
    ∀ e ∈ sel (centerBuckets cap j (outs j)), e ∈ sel (vineyardFold cap outs k) := by
  intro e he
  rw [vineyardFold_join cap outs k sel happ hemp]
  exact List.mem_flatten.2 ⟨_, List.mem_map_of_mem _ (List.mem_range.2 hj), he⟩

/-- Field membership implies `allVEntries` membership. -/
theorem mem_allVEntries_of_field (bs : VBuckets) (e : VEntry)
    (h : e ∈ bs.ord0 ∨ e ∈ bs.ord1 ∨ e ∈ bs.rel0 ∨ e ∈ bs.rel1 ∨
      e ∈ bs.ext0 ∨ e ∈ bs.ext1) : e ∈ allVEntries bs := by
  unfold allVEntries
  simp only [List.mem_append]
  tauto

/-- `allVEntries` membership comes from one of the six fields. -/
theorem field_of_mem_allVEntries (bs : VBuckets) (e : VEntry)
    (h : e ∈ allVEntries bs) :
    e ∈ bs.ord0 ∨ e ∈ bs.ord1 ∨ e ∈ bs.rel0 ∨ e ∈ bs.rel1 ∨
      e ∈ bs.ext0 ∨ e ∈ bs.ext1 := by
  unfold allVEntries at h
  simp only [List.mem_append] at h
  tauto

/-- Every entry of the whole vineyard fold originates from the center its
`centerIdx` names. -/
theorem allVEntries_vineyardFold (cap : ℚ) (outs : ℕ → EngineOut) (k : ℕ) :
    ∀ e ∈ allVEntries (vineyardFold cap outs k),
      ∃ j, j < k ∧ e ∈ allVEntries (centerBuckets cap j (outs j)) := by
  intro e he
  rcases field_of_mem_allVEntries _ e he with h | h | h | h | h | h
  · rcases vineyardFold_field_mem cap outs k VBuckets.ord0 (fun a b => rfl) rfl e h with
      ⟨j, hj, hs⟩
    exact ⟨j, hj, mem_allVEntries_of_field _ e (by tauto)⟩
  · rcases vineyardFold_field_mem cap outs k VBuckets.ord1 (fun a b => rfl) rfl e h with
      ⟨j, hj, hs⟩
    exact ⟨j, hj, mem_allVEntries_of_field _ e (by tauto)⟩
  · rcases vineyardFold_field_mem cap outs k VBuckets.rel0 (fun a b => rfl) rfl e h with
      ⟨j, hj, hs⟩
    exact ⟨j, hj, mem_allVEntries_of_field _ e (by tauto)⟩
  · rcases vineyardFold_field_mem cap outs k VBuckets.rel1 (fun a b => rfl) rfl e h with
      ⟨j, hj, hs⟩
    exact ⟨j, hj, mem_allVEntries_of_field _ e (by tauto)⟩
  · rcases vineyardFold_field_mem cap outs k VBuckets.ext0 (fun a b => rfl) rfl e h with
      ⟨j, hj, hs⟩
    exact ⟨j, hj, mem_allVEntries_of_field _ e (by tauto)⟩
  · rcases vineyardFold_field_mem cap outs k VBuckets.ext1 (fun a b => rfl) rfl e h with
      ⟨j, hj, hs⟩
    exact ⟨j, hj, mem_allVEntries_of_field _ e (by tauto)⟩

/-- A center whose ordinary diagram is nonempty contributes at least one
entry, in `ord0` or `ord1`. -/
theorem centerBuckets_ord_witness (cap : ℚ) (ci : ℕ) (out : EngineOut)
    (hne : out.ordinary ≠ []) :
    ∃ e, (e ∈ (centerBuckets cap ci out).ord0 ∨ e ∈ (centerBuckets cap ci out).ord1) ∧
      e.centerIdx = ci := by
  rcases List.exists_mem_of_ne_nil out.ordinary hne with ⟨c, hc⟩
  unfold centerBuckets
  rw [processCenter_eq]
  by_cases hdim : c.dim = 0
  · refine ⟨mkVEntry cap ci 0 c, Or.inl ?_, rfl⟩
    simp only [VBuckets.empty, List.nil_append]
    exact List.mem_map_of_mem _ (List.mem_filter.2 ⟨hc, by simp [hdim]⟩)
  · refine ⟨mkVEntry cap ci 0 c, Or.inr ?_, rfl⟩
    simp only [VBuckets.empty, List.nil_append]
    exact List.mem_map_of_mem _ (List.mem_filter.2 ⟨hc, by simp [hdim]⟩)

/-- Coverage of center indices: with a per-center nonempty ordinary diagram
the entries of a `k`-center fold realize exactly the indices below `k`. -/
theorem vineyardFold_centerIdx_iff (cap : ℚ) (outs : ℕ → EngineOut) (k : ℕ)
    (hne : ∀ ci, ci < k → (outs ci).ordinary ≠ []) :
    ∀ x, (∃ e ∈ allVEntries (vineyardFold cap outs k), e.centerIdx = x) ↔ x < k := by
  intro x
  constructor
  · rintro ⟨e, he, rfl⟩
    rcases allVEntries_vineyardFold cap outs k e he with ⟨j, hj, hcb⟩
    rw [(centerBuckets_centerIdx_type cap j (outs j) e hcb).1]
    exact hj
  · intro hx
    rcases centerBuckets_ord_witness cap x (outs x) (hne x hx) with ⟨e, hor, hci⟩
    rcases hor with h | h
    · exact ⟨e, mem_allVEntries_of_field _ e
        (Or.inl (vineyardFold_field_mem_rev cap outs k VBuckets.ord0
          (fun a b => rfl) rfl x hx e h)), hci⟩
    · exact ⟨e, mem_allVEntries_of_field _ e
        (Or.inr (Or.inl (vineyardFold_field_mem_rev cap outs k VBuckets.ord1
          (fun a b => rfl) rfl x hx e h))), hci⟩

/-- Projecting a center's vineyard entries to bare `(birth, death)` pairs
recovers exactly the single-center aggregation at the same cap. -/
theorem centerBuckets_proj (cap : ℚ) (ci : ℕ) (out : EngineOut) :
    ((centerBuckets cap ci out).ord0.map (fun e => (e.birth, e.death)) =
        (process_extended_persistence cap out).ord0) ∧
    ((centerBuckets cap ci out).ord1.map (fun e => (e.birth, e.death)) =
        (process_extended_persistence cap out).ord1) ∧
    ((centerBuckets cap ci out).rel0.map (fun e => (e.birth, e.death)) =
        (process_extended_persistence cap out).rel0) ∧
    ((centerBuckets cap ci out).rel1.map (fun e => (e.birth, e.death)) =
        (process_extended_persistence cap out).rel1) ∧
    ((centerBuckets cap ci out).ext0.map (fun e => (e.birth, e.death)) =
        (process_extended_persistence cap out).ext0) ∧
    ((centerBuckets cap ci out).ext1.map (fun e => (e.birth, e.death)) =
        (process_extended_persistence cap out).ext1) := by
  unfold centerBuckets
  rw [processCenter_eq, process_extended_persistence_eq]
  simp only [VBuckets.empty, List.nil_append, List.map_append, List.map_map]
  refine ⟨?_, ?_, ?_, ?_, ?_, ?_⟩ <;> rfl

/-- When no class is infinite the cap value is irrelevant to the
single-center aggregation. -/
theorem process_cap_irrelevant (cap1 cap2 : ℚ) (out : EngineOut)
    (h : ∀ c ∈ allClasses out, c.death ≠ none) :
    process_extended_persistence cap1 out = process_extended_persistence cap2 out := by
  rw [process_extended_persistence_eq, process_extended_persistence_eq]
  have hcp : ∀ (l : List PersClass), (∀ c ∈ l, c ∈ allClasses out) →
      ∀ p : PersClass → Bool,
      (l.filter p).map (capPair cap1) = (l.filter p).map (capPair cap2) := by
    intro l hl p
    refine List.map_congr_left ?_
    intro c hc
    have hcd := h c (hl c (List.mem_filter.1 hc).1)
    unfold capPair capDeath
    cases hd : c.death with
    | none => exact absurd hd hcd
    | some dv => rfl
  have h1 : ∀ c ∈ out.ordinary, c ∈ allClasses out := by
    intro c hc; simp [allClasses, hc]
  have h2 : ∀ c ∈ out.relative, c ∈ allClasses out := by
    intro c hc; simp [allClasses, hc]
  have h3 : ∀ c ∈ out.extPlus, c ∈ allClasses out := by
    intro c hc; simp [allClasses, hc]
  have h4 : ∀ c ∈ out.extMinus, c ∈ allClasses out := by
    intro c hc; simp [allClasses, hc]
  rw [hcp out.ordinary h1 (fun c => c.dim == 0), hcp out.ordinary h1 (fun c => c.dim != 0),
    hcp out.relative h2 (fun c => c.dim == 0), hcp out.relative h2 (fun c => c.dim != 0),
    hcp out.extPlus h3 (fun c => c.dim == 0), hcp out.extPlus h3 (fun c => c.dim != 0),
    hcp out.extMinus h4 (fun c => c.dim == 0), hcp out.extMinus h4 (fun c => c.dim != 0)]

/-- Splitting a list by a Boolean predicate preserves the total length. -/
theorem filter_split_length {α : Type _} (l : List α) (p : α → Bool) :
    (l.filter p).length + (l.filter (fun c => ! p c)).length = l.length := by
  induction l with
  | nil => simp
  | cons a l ih =>
    by_cases h : p a
    · simp [List.filter_cons, h]
      omega
    · simp [List.filter_cons, h]
      omega

/-! ## Except and mapM helpers, orchestrator unfolding -/

theorem except_bind_ok {ε α β : Type _} (x : α) (f : α → Except ε β) :
    (Except.ok x : Except ε α) >>= f = f x := rfl

theorem except_pure_eq {ε α : Type _} (x : α) :
    (pure x : Except ε α) = Except.ok x := rfl

theorem mapM_except_ok_cons {α β : Type _} (f : α → Except String β) (a : α)
    (l : List α) (r : List β) (h : (a :: l).mapM f = .ok r) :
    ∃ b rs, f a = .ok b ∧ l.mapM f = .ok rs ∧ r = b :: rs := by
  rw [List.mapM_cons] at h
  cases hfa : f a with
  | error e =>
    rw [hfa] at h
    simp only [show ((Except.error e : Except String β) >>= fun b =>
      l.mapM f >>= fun rs => pure (b :: rs)) = Except.error e from rfl] at h
    cases h
  | ok b =>
    rw [hfa, except_bind_ok] at h
    cases hfl : l.mapM f with
    | error e =>
      rw [hfl] at h
      simp only [show ((Except.error e : Except String (List β)) >>= fun rs =>
        (pure (b :: rs) : Except String (List β))) = Except.error e from rfl] at h
      cases h
    | ok rs =>
      rw [hfl, except_bind_ok, except_pure_eq] at h
      cases h
      exact ⟨b, rs, rfl, rfl, rfl⟩

theorem mapM_except_ok_length {α β : Type _} (f : α → Except String β) :
    ∀ (l : List α) (r : List β), l.mapM f = .ok r → r.length = l.length := by
  intro l
  induction l with
  | nil =>
    intro r h
    rw [List.mapM_nil, except_pure_eq] at h
    cases h
    rfl
  | cons a l ih =>
    intro r h
    rcases mapM_except_ok_cons f a l r h with ⟨b, rs, _, hrs, rfl⟩
    simp [ih rs hrs]

theorem mapM_except_ok_get {α β : Type _} (f : α → Except String β) :
    ∀ (l : List α) (r : List β), l.mapM f = .ok r →
      ∀ i (hi : i < l.length) (hi2 : i < r.length),
        f (l.get ⟨i, hi⟩) = .ok (r.get ⟨i, hi2⟩) := by
  intro l
  induction l with
  | nil =>
    intro r h i hi
    simp at hi
  | cons a l ih =>
    intro r h i hi hi2
    rcases mapM_except_ok_cons f a l r h with ⟨b, rs, hb, hrs, rfl⟩
    cases i with
    | zero => simpa using hb
    | succ i =>
      have hi' : i < l.length := by simpa using hi
      have hi2' : i < rs.length := by simpa using hi2
      simpa using ih rs hrs i hi' hi2'

theorem np_min_ok (l : List ℚ) (h : l ≠ []) : np_min l = .ok (listMin l) := by
  cases l with
  | nil => exact absurd rfl h
  | cons a rest => rfl

theorem np_max_ok (l : List ℚ) (h : l ≠ []) : np_max l = .ok (listMax l) := by
  cases l with
  | nil => exact absurd rfl h
  | cons a rest => rfl

theorem compute_distances_length (u : Bool) (sqrtFn : ℚ → ℚ)
    (coords : List (ℚ × ℚ)) (c : ℚ × ℚ) :
    (compute_distances u sqrtFn coords c).length = coords.length := by
  unfold compute_distances
  split <;> simp

/-- Happy-path unfolding of the single-center route: with a well-formed
request and a successful engine, the response carries the six buckets capped
at `r_max * 1.5` together with `r_min` and `r_max`. -/
theorem compute_persistence_ok (sqrtFn : ℚ → ℚ)
    (engine : SimplexTree → Except String EngineOut)
    (c : RawCenter) (cx cy : ℚ) (pts : List RawPoint) (u : Option Bool)
    (coords : List (ℚ × ℚ)) (out : EngineOut)
    (hc : extractXY c.x c.y = .ok (cx, cy))
    (h3 : ¬ pts.length < 3)
    (hpts : extract_coords pts = .ok coords)
    (heng : engine (build_simplex_tree coords
      (compute_distances (u.getD true) sqrtFn coords (cx, cy))
      (group_points pts)) = .ok out) :
    compute_persistence sqrtFn engine ⟨some c, some pts, u⟩ =
      .ok (process_extended_persistence
          (listMax (compute_distances (u.getD true) sqrtFn coords (cx, cy)) * (3 / 2)) out)
        (listMin (compute_distances (u.getD true) sqrtFn coords (cx, cy)))
        (listMax (compute_distances (u.getD true) sqrtFn coords (cx, cy))) := by
  have hlen : coords.length = pts.length := mapM_except_ok_length _ _ _ hpts
  have hdne : compute_distances (u.getD true) sqrtFn coords (cx, cy) ≠ [] := by
    intro hcon
    have := compute_distances_length (u.getD true) sqrtFn coords (cx, cy)
    rw [hcon] at this
    simp [hlen] at this
    omega
  unfold compute_persistence
  dsimp only
  rw [hc]
  dsimp only
  rw [if_neg h3, hpts]
  dsimp only
  rw [np_min_ok _ hdne]
  dsimp only
  rw [np_max_ok _ hdne]
  dsimp only
  rw [heng]

/-- Engine-failure unfolding of the single-center route: the GUDHI exception
message is surfaced as the 500 response. -/
theorem compute_persistence_engine_error (sqrtFn : ℚ → ℚ)
    (engine : SimplexTree → Except String EngineOut)
    (c : RawCenter) (cx cy : ℚ) (pts : List RawPoint) (u : Option Bool)
    (coords : List (ℚ × ℚ)) (emsg : String)
    (hc : extractXY c.x c.y = .ok (cx, cy))
    (h3 : ¬ pts.length < 3)
    (hpts : extract_coords pts = .ok coords)
    (heng : engine (build_simplex_tree coords
      (compute_distances (u.getD true) sqrtFn coords (cx, cy))
      (group_points pts)) = .error emsg) :
    compute_persistence sqrtFn engine ⟨some c, some pts, u⟩ = .serverError emsg := by
  have hlen : coords.length = pts.length := mapM_except_ok_length _ _ _ hpts
  have hdne : compute_distances (u.getD true) sqrtFn coords (cx, cy) ≠ [] := by
    intro hcon
    have := compute_distances_length (u.getD true) sqrtFn coords (cx, cy)
    rw [hcon] at this
    simp [hlen] at this
    omega
  unfold compute_persistence
  dsimp only
  rw [hc]
  dsimp only
  rw [if_neg h3, hpts]
  dsimp only
  rw [np_min_ok _ hdne]
  dsimp only
  rw [np_max_ok _ hdne]
  dsimp only
  rw [heng]

/-- The per-center loop succeeds and equals the pure fold when the engine
succeeds on every center's tree. -/
theorem runCenters_ok (engine : SimplexTree → Except String EngineOut) (cap : ℚ)
    (coords : List (ℚ × ℚ)) (gs : List (ℕ × List ℕ)) (rows : List (List ℚ))
    (k : ℕ) (outs : ℕ → EngineOut)
    (heng : ∀ ci, ci < k →
      engine (build_simplex_tree coords (rows.getD ci []) gs) = .ok (outs ci)) :
    runCenters engine cap coords gs rows k = .ok (vineyardFold cap outs k) := by
  induction k with
  | zero =>
    unfold runCenters vineyardFold
    rfl
  | succ k ih =>
    have ihh := ih (fun ci hci => heng ci (by omega))
    unfold runCenters at ihh ⊢
    rw [List.range_succ, List.foldlM_append, ihh, except_bind_ok,
      List.foldlM_cons]
    dsimp only
    rw [heng k (by omega), except_bind_ok, except_pure_eq, except_bind_ok,
      List.foldlM_nil, except_pure_eq, vineyardFold_succ]

/-- Happy-path unfolding of the vineyard route: the shared cap is the global
distance maximum times `1.15`, computed once and passed unchanged to every
iteration of the per-center loop. -/
theorem compute_vineyard_ok (sqrtFn : ℚ → ℚ)
    (engine : SimplexTree → Except String EngineOut)
    (cs : List RawCenter) (pts : List RawPoint) (u : Option Bool)
    (centerCoords : List (ℚ × ℚ)) (coords : List (ℚ × ℚ)) (outs : ℕ → EngineOut)
    (hcs : extract_centers cs = .ok centerCoords)
    (hpts : extract_coords pts = .ok coords)
    (h3 : ¬ pts.length < 3)
    (hk : centerCoords ≠ [])
    (heng : ∀ ci, ci < cs.length →
      engine (build_simplex_tree coords
        ((centerCoords.map (compute_distances (u.getD true) sqrtFn coords)).getD ci [])
        (group_points pts)) = .ok (outs ci)) :
    compute_vineyard sqrtFn engine ⟨some cs, some pts, u⟩ =
      .ok (vineyardFold
          (listMax ((centerCoords.map
              (compute_distances (u.getD true) sqrtFn coords)).flatten) * (23 / 20))
          outs cs.length)
        (listMax ((centerCoords.map
            (compute_distances (u.getD true) sqrtFn coords)).flatten) * (23 / 20)) := by
  have hflne : (centerCoords.map
      (compute_distances (u.getD true) sqrtFn coords)).flatten ≠ [] := by
    cases centerCoords with
    | nil => exact absurd rfl hk
    | cons c0 rest =>
      simp only [List.map_cons, List.flatten_cons]
      intro hcon
      rw [List.append_eq_nil] at hcon
      have h0 := congrArg List.length hcon.1
      rw [compute_distances_length] at h0
      have hlen := mapM_except_ok_length _ _ _ hpts
      simp only [List.length_nil] at h0
      omega
  unfold compute_vineyard
  dsimp only
  rw [if_neg h3, hpts]
  dsimp only
  rw [hcs]
  dsimp only
  rw [np_max_ok _ hflne]
  dsimp only
  rw [runCenters_ok engine _ coords (group_points pts) _ cs.length outs heng]

/-! ## Claim theorems -/

/-- Claim C1: for every filtered complex built by the builder (any
coordinates, any per-point distance array, any curve grouping), every vertex
`i < n` carries filtration `distances[i]`, and every edge's filtration
equals the maximum of its two endpoints' filtration values; in particular no
edge's filtration is ever less than either endpoint's filtration. -/
theorem claim_c1_edge_filtration (coords : List (ℚ × ℚ)) (distances : List ℚ)
    (curve_groups : List (ℕ × List ℕ)) :
    (∀ i, i < coords.length →
      (build_simplex_tree coords distances curve_groups).vertices.find?
        (fun v => v.1 == i) = some (i, distances.getD i 0)) ∧
    (∀ e ∈ (build_simplex_tree coords distances curve_groups).edges,
      e.2 = max (distances.getD e.1.1 0) (distances.getD e.1.2 0) ∧
      distances.getD e.1.1 0 ≤ e.2 ∧ distances.getD e.1.2 0 ≤ e.2) := by
  refine ⟨build_vertex_find coords distances curve_groups, ?_⟩
  intro e he
  have h := build_edges_filtration coords distances curve_groups e he
  exact ⟨h, by rw [h]; exact le_max_left _ _, by rw [h]; exact le_max_right _ _⟩

/-- Witness for C1: a concrete one-curve complex on three points. -/
theorem claim_c1_edge_filtration_witness :
    (build_simplex_tree [((0 : ℚ), 0), (1, 0), (2, 0)] [0, 1, 4]
      [(0, [0, 1, 2])]).vertices.find? (fun v => v.1 == 2) =
        some (2, ([(0 : ℚ), 1, 4] : List ℚ).getD 2 0) ∧
    ((((0, 1), (1 : ℚ)) : (ℕ × ℕ) × ℚ).2 =
      max (([(0 : ℚ), 1, 4] : List ℚ).getD 0 0) (([(0 : ℚ), 1, 4] : List ℚ).getD 1 0) ∧
     ([(0 : ℚ), 1, 4] : List ℚ).getD 0 0 ≤ (1 : ℚ) ∧
     ([(0 : ℚ), 1, 4] : List ℚ).getD 1 0 ≤ (1 : ℚ)) :=
  ⟨(claim_c1_edge_filtration [((0 : ℚ), 0), (1, 0), (2, 0)] [0, 1, 4]
      [(0, [0, 1, 2])]).1 2 (by decide),
   (claim_c1_edge_filtration [((0 : ℚ), 0), (1, 0), (2, 0)] [0, 1, 4]
      [(0, [0, 1, 2])]).2 ((0, 1), 1) (by decide)⟩

/-- Counterexample to claim C2 as stated: a curve group with exactly 2
points contributes only 1 distinct edge to the built complex, not `m = 2`
distinct edges — the two inserted connections `(i0, i1)` and `(i1, i0)` are
the same unordered simplex, which GUDHI deduplicates. -/
theorem claim_c2_counterexample :
    ¬ ((build_simplex_tree [((0 : ℚ), 0), (1, 0), (2, 0)] [0, 1, 4]
        [(0, [0, 1]), (1, [2])]).edges.filter
          (fun e => decide (e.1.1 ∈ ([0, 1] : List ℕ)) &&
            decide (e.1.2 ∈ ([0, 1] : List ℕ)))).length = 2 := by
  decide

/-- Claim C2 (amended): for every curve group of a pairwise-disjoint,
duplicate-free grouping (which the grouping the server builds always is),
the builder connects `indices[j]` to `indices[(j + 1) % m]` for every `j`
whenever `m ≥ 2`, and the number of distinct edges the built complex
contains for that group is exactly `m` when `m ≥ 3`, exactly `1` when
`m = 2` (the two inserted connections coincide as an unordered pair), and
`0` when `m ≤ 1` (a 1-point curve contributes no edge). -/
theorem claim_c2_cycle_edges (coords : List (ℚ × ℚ)) (distances : List ℚ)
    (gs : List (ℕ × List ℕ))
    (hdisj : gs.Pairwise (fun g h => ∀ x ∈ g.2, x ∉ h.2))
    (hnds : ∀ g ∈ gs, g.2.Nodup) (g : ℕ × List ℕ) (hg : g ∈ gs) :
    ((2 ≤ g.2.length → ∀ j < g.2.length,
      edgeMem (build_simplex_tree coords distances gs).edges
        (g.2.getD j 0) (g.2.getD ((j + 1) % g.2.length) 0) = true) ∧
    ((build_simplex_tree coords distances gs).edges.filter
        (fun e => decide (e.1.1 ∈ g.2) && decide (e.1.2 ∈ g.2))).length =
      (if 3 ≤ g.2.length then g.2.length else if g.2.length = 2 then 1 else 0)) ∧
    (∀ pts : List RawPoint,
      (group_points pts).Pairwise (fun g1 g2 => ∀ x ∈ g1.2, x ∉ g2.2) ∧
      ∀ g2 ∈ group_points pts, g2.2.Nodup) := by
  refine ⟨⟨?_, ?_⟩, ?_⟩
  · intro hm2 j hj
    exact build_group_connect coords distances gs hdisj hnds g hg hm2 j hj
  · rw [build_group_filter coords distances gs hdisj hnds g hg]
    unfold groupNewEdges
    by_cases h3 : 3 ≤ g.2.length
    · rw [if_pos h3, if_pos h3]
      simp
    · rw [if_neg h3, if_neg h3]
      by_cases h2 : g.2.length = 2
      · rw [if_pos h2, if_pos h2]
        rfl
      · rw [if_neg h2, if_neg h2]
        rfl
  · intro pts
    exact ⟨group_points_disjoint pts, group_points_nodup pts⟩

/-- Witness for C2 (amended) at a grouping with a 3-cycle and a 2-point
curve. -/
theorem claim_c2_cycle_edges_witness :
    edgeMem (build_simplex_tree
        [((0 : ℚ), 0), (1, 0), (2, 0), (3, 0), (4, 0)] [0, 1, 4, 9, 16]
        [(0, [0, 1, 2]), (1, [3, 4])]).edges
      (([0, 1, 2] : List ℕ).getD 2 0)
      (([0, 1, 2] : List ℕ).getD ((2 + 1) % ([0, 1, 2] : List ℕ).length) 0) = true ∧
    ((build_simplex_tree
        [((0 : ℚ), 0), (1, 0), (2, 0), (3, 0), (4, 0)] [0, 1, 4, 9, 16]
        [(0, [0, 1, 2]), (1, [3, 4])]).edges.filter
          (fun e => decide (e.1.1 ∈ ([3, 4] : List ℕ)) &&
            decide (e.1.2 ∈ ([3, 4] : List ℕ)))).length =
      (if 3 ≤ ([3, 4] : List ℕ).length then ([3, 4] : List ℕ).length
       else if ([3, 4] : List ℕ).length = 2 then 1 else 0) :=
  ⟨(claim_c2_cycle_edges [((0 : ℚ), 0), (1, 0), (2, 0), (3, 0), (4, 0)]
      [0, 1, 4, 9, 16] [(0, [0, 1, 2]), (1, [3, 4])] (by decide) (by decide)
      (0, [0, 1, 2]) (by decide)).1.1 (by decide) 2 (by decide),
   (claim_c2_cycle_edges [((0 : ℚ), 0), (1, 0), (2, 0), (3, 0), (4, 0)]
      [0, 1, 4, 9, 16] [(0, [0, 1, 2]), (1, [3, 4])] (by decide) (by decide)
      (1, [3, 4]) (by decide)).1.2⟩

/-- Claim C7: a request (single-center or vineyard) whose points list has
fewer than 3 elements fails with the 400-class validation response
`Need at least 3 points`; the equality holds for every engine, so the
complex is never built and the engine is never invoked. -/
theorem claim_c7_min_points (sqrtFn : ℚ → ℚ)
    (engine : SimplexTree → Except String EngineOut)
    (cx cy : ℚ) (pts : List RawPoint) (u : Option Bool) (cs : List RawCenter)
    (hlen : pts.length < 3) :
    compute_persistence sqrtFn engine ⟨some ⟨some cx, some cy⟩, some pts, u⟩ =
      .badRequest "Need at least 3 points" ∧
    compute_vineyard sqrtFn engine ⟨some cs, some pts, u⟩ =
      .badRequest "Need at least 3 points" := by
  constructor
  · unfold compute_persistence
    dsimp only [extractXY]
    rw [if_pos hlen]
  · unfold compute_vineyard
    dsimp only
    rw [if_pos hlen]

/-- Witness for C7: a 2-point request is rejected. -/
theorem claim_c7_min_points_witness :
    compute_persistence id (fun _ => .ok ⟨[], [], [], []⟩)
      ⟨some ⟨some 0, some 0⟩,
        some [⟨some 0, some 0, none⟩, ⟨some 1, some 1, none⟩], none⟩ =
      .badRequest "Need at least 3 points" ∧
    compute_vineyard id (fun _ => .ok ⟨[], [], [], []⟩)
      ⟨some [⟨some 0, some 0⟩],
        some [⟨some 0, some 0, none⟩, ⟨some 1, some 1, none⟩], none⟩ =
      .badRequest "Need at least 3 points" :=
  claim_c7_min_points id (fun _ => .ok ⟨[], [], [], []⟩) 0 0
    [⟨some 0, some 0, none⟩, ⟨some 1, some 1, none⟩] none [⟨some 0, some 0⟩]
    (by decide)

/-- Claim C8: for any two point indices whose points carry different curve
ids, no edge between them (in either orientation) exists in the built
complex — every edge connects two indices of the same curve group. -/
theorem claim_c8_no_cross_curve_edges (coords : List (ℚ × ℚ)) (d : List ℚ)
    (pts : List RawPoint) (i j : ℕ) (p q : RawPoint)
    (hpi : pts.get? i = some p) (hpj : pts.get? j = some q)
    (hne : p.curveId.getD 0 ≠ q.curveId.getD 0) :
    edgeMem (build_simplex_tree coords d (group_points pts)).edges i j = false := by
  by_contra hcon
  rw [Bool.not_eq_false] at hcon
  unfold edgeMem at hcon
  rw [List.any_eq_true] at hcon
  rcases hcon with ⟨e, he, hmatch⟩
  simp only [Bool.or_eq_true, Bool.and_eq_true, beq_iff_eq] at hmatch
  rcases build_edges_same_curve coords d pts e he with ⟨p2, q2, hp2, hq2, hpq⟩
  rcases hmatch with ⟨h1, h2⟩ | ⟨h1, h2⟩
  · rw [h1] at hp2
    rw [h2] at hq2
    rw [hpi] at hp2
    rw [hpj] at hq2
    injection hp2 with hp2
    injection hq2 with hq2
    subst hp2
    subst hq2
    exact hne hpq
  · rw [h1] at hp2
    rw [h2] at hq2
    rw [hpj] at hp2
    rw [hpi] at hq2
    injection hp2 with hp2
    injection hq2 with hq2
    subst hp2
    subst hq2
    exact hne hpq.symm

/-- Witness for C8: two points on different curves get no edge. -/
theorem claim_c8_no_cross_curve_edges_witness :
    edgeMem (build_simplex_tree [((0 : ℚ), 0), (1, 0), (2, 0)] [0, 1, 4]
      (group_points [⟨some 0, some 0, some 0⟩, ⟨some 1, some 0, some 1⟩,
        ⟨some 2, some 0, some 0⟩])).edges 0 1 = false :=
  claim_c8_no_cross_curve_edges [((0 : ℚ), 0), (1, 0), (2, 0)] [0, 1, 4]
    [⟨some 0, some 0, some 0⟩, ⟨some 1, some 0, some 1⟩, ⟨some 2, some 0, some 0⟩]
    0 1 ⟨some 0, some 0, some 0⟩ ⟨some 1, some 0, some 1⟩
    (by decide) (by decide) (by decide)

/-- Claim C9: requests with a missing required field (`center`, `centers`,
`points`, or a point or center missing `x` or `y`) fail during the
extraction phase, before the complex is built or the engine is consulted:
the result is the surfaced `KeyError`, identical for every engine.  By
contrast, the final conjunct shows a computation failure arises only from
the engine itself: with well-formed input, the 500 response carries exactly
the engine's own message. -/
theorem claim_c9_malformed_input (sqrtFn : ℚ → ℚ)
    (engine : SimplexTree → Except String EngineOut)
    (c : RawCenter) (pts : List RawPoint) (u : Option Bool) (cs : List RawCenter)
    (y : Option ℚ) :
    (compute_persistence sqrtFn engine ⟨none, some pts, u⟩ =
      .serverError "KeyError: center") ∧
    (compute_persistence sqrtFn engine ⟨some c, none, u⟩ =
      .serverError "KeyError: points") ∧
    (compute_persistence sqrtFn engine ⟨some ⟨none, y⟩, some pts, u⟩ =
      .serverError "KeyError: x") ∧
    (∀ cx : ℚ, compute_persistence sqrtFn engine ⟨some ⟨some cx, none⟩, some pts, u⟩ =
      .serverError "KeyError: y") ∧
    (¬ pts.length < 3 → ∀ emsg, extract_coords pts = .error emsg →
      ∀ cx cy : ℚ, compute_persistence sqrtFn engine
        ⟨some ⟨some cx, some cy⟩, some pts, u⟩ = .serverError emsg) ∧
    (compute_vineyard sqrtFn engine ⟨none, some pts, u⟩ =
      .serverError "KeyError: centers") ∧
    (compute_vineyard sqrtFn engine ⟨some cs, none, u⟩ =
      .serverError "KeyError: points") ∧
    (¬ pts.length < 3 → ∀ emsg, extract_coords pts = .error emsg →
      compute_vineyard sqrtFn engine ⟨some cs, some pts, u⟩ = .serverError emsg) ∧
    (¬ pts.length < 3 → ∀ coords, extract_coords pts = .ok coords →
      ∀ emsg, extract_centers cs = .error emsg →
      compute_vineyard sqrtFn engine ⟨some cs, some pts, u⟩ = .serverError emsg) ∧
    (¬ pts.length < 3 → ∀ coords, extract_coords pts = .ok coords →
      ∀ cx cy : ℚ, extractXY c.x c.y = .ok (cx, cy) → ∀ emsg,
      engine (build_simplex_tree coords
        (compute_distances (u.getD true) sqrtFn coords (cx, cy))
        (group_points pts)) = .error emsg →
      compute_persistence sqrtFn engine ⟨some c, some pts, u⟩ = .serverError emsg) := by
  refine ⟨rfl, rfl, rfl, fun cx => rfl, ?_, rfl, rfl, ?_, ?_, ?_⟩
  · intro h3 emsg herr cx cy
    unfold compute_persistence
    dsimp only [extractXY]
    rw [if_neg h3, herr]
  · intro h3 emsg herr
    unfold compute_vineyard
    dsimp only
    rw [if_neg h3, herr]
  · intro h3 coords hok emsg herr
    unfold compute_vineyard
    dsimp only
    rw [if_neg h3, hok]
    dsimp only
    rw [herr]
  · intro h3 coords hok cx cy hc emsg herr
    exact compute_persistence_engine_error sqrtFn engine c cx cy pts u coords emsg
      hc h3 hok herr

/-- Witness for C9: a missing `center`, a point missing `x`, and an engine
failure, on concrete inputs. -/
theorem claim_c9_malformed_input_witness :
    (compute_persistence id (fun _ => .ok ⟨[], [], [], []⟩)
      ⟨none, some [⟨some 0, some 0, none⟩], none⟩ =
        .serverError "KeyError: center") ∧
    (compute_persistence id (fun _ => .ok ⟨[], [], [], []⟩)
      ⟨some ⟨some 0, some 0⟩,
        some [⟨none, some 0, none⟩, ⟨some 1, some 0, none⟩, ⟨some 2, some 0, none⟩],
        none⟩ = .serverError "KeyError: x") ∧
    (compute_persistence id (fun _ => .error "boom")
      ⟨some ⟨some 0, some 0⟩,
        some [⟨some 1, some 0, none⟩, ⟨some 0, some 1, none⟩, ⟨some 2, some 0, none⟩],
        none⟩ = .serverError "boom") :=
  ⟨(claim_c9_malformed_input id (fun _ => .ok ⟨[], [], [], []⟩) ⟨none, none⟩
      [⟨some 0, some 0, none⟩] none [] none).1,
   (claim_c9_malformed_input id (fun _ => .ok ⟨[], [], [], []⟩) ⟨none, none⟩
      [⟨none, some 0, none⟩, ⟨some 1, some 0, none⟩, ⟨some 2, some 0, none⟩]
      none [] none).2.2.2.2.1 (by decide) "KeyError: x" rfl 0 0,
   (claim_c9_malformed_input id (fun _ => .error "boom") ⟨some 0, some 0⟩
      [⟨some 1, some 0, none⟩, ⟨some 0, some 1, none⟩, ⟨some 2, some 0, none⟩]
      none [] none).2.2.2.2.2.2.2.2.2 (by decide)
      [((1 : ℚ), (0 : ℚ)), (0, 1), (2, 0)] rfl 0 0 rfl "boom" rfl⟩

/-- Counterexample to claim C4 as stated: the aggregator passes finite
deaths through unchanged, so a class whose finite death exceeds the cap is
reported above the cap — `death ≤ cap` is not unconditional over everything
the aggregator processes. -/
theorem claim_c4_counterexample :
    ¬ (∀ p ∈ allPairs (process_extended_persistence 1
        ⟨[⟨0, 0, some 2⟩], [], [], []⟩), p.2 ≤ 1) := by
  decide

/-- Claim C4 (amended): infinite deaths are reported exactly at the cap
with `isInfinite = true`, finite deaths pass through unchanged, and —
provided every finite death the engine reports lies strictly below the cap
(as holds for the radial filtration values against `r_max * 1.5` or the
global `* 1.15` cap whenever `r_max > 0`) — every reported death is at most
the cap, with `death = cap` exactly on the `isInfinite` entries. -/
theorem claim_c4_capping (cap : ℚ) (ci : ℕ) (out : EngineOut)
    (hfin : ∀ c ∈ allClasses out, ∀ dv, c.death = some dv → dv < cap) :
    (∀ e ∈ allVEntries (centerBuckets cap ci out),
      e.death ≤ cap ∧ (e.death = cap ↔ e.isInfinite = true) ∧
      (e.isInfinite = true → e.death = cap) ∧
      (e.isInfinite = false →
        ∃ c ∈ allClasses out, c.death = some e.death ∧ c.birth = e.birth)) ∧
    (∀ p ∈ allPairs (process_extended_persistence cap out), p.2 ≤ cap) :=
  ⟨centerBuckets_death_spec cap ci out hfin, process_pairs_death_le cap out hfin⟩

/-- Witness for C4 (amended): a concrete infinite class capped at 10. -/
theorem claim_c4_capping_witness :
    ((10 : ℚ) ≤ 10 ∧ ((10 : ℚ) = 10 ↔ true = true) ∧
      (true = true → (10 : ℚ) = 10) ∧
      (true = false → ∃ c ∈ allClasses ⟨[⟨0, 0, none⟩], [], [], []⟩,
        c.death = some 10 ∧ c.birth = 0)) ∧
    ((0 : ℚ), (10 : ℚ)).2 ≤ 10 :=
  ⟨(claim_c4_capping 10 0 ⟨[⟨0, 0, none⟩], [], [], []⟩
      (by intro c hc dv hdv; simp [allClasses] at hc; subst hc; cases hdv)).1
      ⟨0, 10, 0, true, "ord"⟩ (by decide),
   (claim_c4_capping 10 0 ⟨[⟨0, 0, none⟩], [], [], []⟩
      (by intro c hc dv hdv; simp [allClasses] at hc; subst hc; cases hdv)).2
      (0, 10) (by decide)⟩

/-- Splitting the classes of a diagram by dimension preserves the count. -/
theorem dim_split_length (l : List PersClass) :
    (l.filter (fun c => c.dim == 0)).length +
      (l.filter (fun c => c.dim != 0)).length = l.length := by
  induction l with
  | nil => rfl
  | cons c cs ih =>
    by_cases h : c.dim = 0
    · simp only [List.filter_cons, h]
      simp only [beq_self_eq_true, if_pos, bne_self_eq_false]
      simp [h, List.length_cons]
      omega
    · simp only [List.filter_cons]
      simp [h, List.length_cons]
      omega

/-- Claim C5: the aggregator routes ordinary classes to `ord0`/`ord1` by
dimension, relative classes to `rel0`/`rel1`, and both extended diagrams
into the merged `ext0`/`ext1`, and the total number of reported pairs
equals the total number of classes (no class dropped or duplicated). -/
theorem claim_c5_bucket_partition (cap : ℚ) (out : EngineOut)
    (hdim : ∀ c ∈ allClasses out, c.dim = 0 ∨ c.dim = 1) :
    (process_extended_persistence cap out).ord0 =
      (out.ordinary.filter (fun c => c.dim == 0)).map (capPair cap) ∧
    (process_extended_persistence cap out).ord1 =
      (out.ordinary.filter (fun c => c.dim == 1)).map (capPair cap) ∧
    (process_extended_persistence cap out).rel0 =
      (out.relative.filter (fun c => c.dim == 0)).map (capPair cap) ∧
    (process_extended_persistence cap out).rel1 =
      (out.relative.filter (fun c => c.dim == 1)).map (capPair cap) ∧
    (process_extended_persistence cap out).ext0 =
      (out.extPlus.filter (fun c => c.dim == 0)).map (capPair cap) ++
        (out.extMinus.filter (fun c => c.dim == 0)).map (capPair cap) ∧
    (process_extended_persistence cap out).ext1 =
      (out.extPlus.filter (fun c => c.dim == 1)).map (capPair cap) ++
        (out.extMinus.filter (fun c => c.dim == 1)).map (capPair cap) ∧
    (allPairs (process_extended_persistence cap out)).length =
      (allClasses out).length := by
  have hconv : ∀ l : List PersClass, (∀ c ∈ l, c ∈ allClasses out) →
      l.filter (fun c => c.dim != 0) = l.filter (fun c => c.dim == 1) := by
    intro l hl
    refine List.filter_congr ?_
    intro c hc
    rcases hdim c (hl c hc) with h | h <;> simp [h]
  have h1 : ∀ c ∈ out.ordinary, c ∈ allClasses out := by
    intro c hc; simp [allClasses, hc]
  have h2 : ∀ c ∈ out.relative, c ∈ allClasses out := by
    intro c hc; simp [allClasses, hc]
  have h3 : ∀ c ∈ out.extPlus, c ∈ allClasses out := by
    intro c hc; simp [allClasses, hc]
  have h4 : ∀ c ∈ out.extMinus, c ∈ allClasses out := by
    intro c hc; simp [allClasses, hc]
  refine ⟨?_, ?_, ?_, ?_, ?_, ?_, ?_⟩
  · rw [process_extended_persistence_eq]
  · rw [process_extended_persistence_eq]
    dsimp only
    rw [hconv out.ordinary h1]
  · rw [process_extended_persistence_eq]
  · rw [process_extended_persistence_eq]
    dsimp only
    rw [hconv out.relative h2]
  · rw [process_extended_persistence_eq]
  · rw [process_extended_persistence_eq]
    dsimp only
    rw [hconv out.extPlus h3, hconv out.extMinus h4]
  · rw [process_extended_persistence_eq]
    have d1 := dim_split_length out.ordinary
    have d2 := dim_split_length out.relative
    have d3 := dim_split_length out.extPlus
    have d4 := dim_split_length out.extMinus
    simp only [allPairs, allClasses, List.length_append, List.length_map]
    omega

/-- Witness for C5 at a concrete four-diagram engine result. -/
theorem claim_c5_bucket_partition_witness :
    (process_extended_persistence 7
        ⟨[⟨0, 0, none⟩, ⟨1, 1, some 2⟩], [⟨0, 5, some 6⟩], [⟨0, 0, some 4⟩],
          [⟨1, 3, some 1⟩]⟩).ord0 =
      (([⟨0, 0, none⟩, ⟨1, 1, some 2⟩] : List PersClass).filter
        (fun c => c.dim == 0)).map (capPair 7) ∧
    (process_extended_persistence 7
        ⟨[⟨0, 0, none⟩, ⟨1, 1, some 2⟩], [⟨0, 5, some 6⟩], [⟨0, 0, some 4⟩],
          [⟨1, 3, some 1⟩]⟩).ord1 =
      (([⟨0, 0, none⟩, ⟨1, 1, some 2⟩] : List PersClass).filter
        (fun c => c.dim == 1)).map (capPair 7) ∧
    (process_extended_persistence 7
        ⟨[⟨0, 0, none⟩, ⟨1, 1, some 2⟩], [⟨0, 5, some 6⟩], [⟨0, 0, some 4⟩],
          [⟨1, 3, some 1⟩]⟩).rel0 =
      (([⟨0, 5, some 6⟩] : List PersClass).filter (fun c => c.dim == 0)).map (capPair 7) ∧
    (process_extended_persistence 7
        ⟨[⟨0, 0, none⟩, ⟨1, 1, some 2⟩], [⟨0, 5, some 6⟩], [⟨0, 0, some 4⟩],
          [⟨1, 3, some 1⟩]⟩).rel1 =
      (([⟨0, 5, some 6⟩] : List PersClass).filter (fun c => c.dim == 1)).map (capPair 7) ∧
    (process_extended_persistence 7
        ⟨[⟨0, 0, none⟩, ⟨1, 1, some 2⟩], [⟨0, 5, some 6⟩], [⟨0, 0, some 4⟩],
          [⟨1, 3, some 1⟩]⟩).ext0 =
      (([⟨0, 0, some 4⟩] : List PersClass).filter (fun c => c.dim == 0)).map (capPair 7) ++
        (([⟨1, 3, some 1⟩] : List PersClass).filter (fun c => c.dim == 0)).map (capPair 7) ∧
    (process_extended_persistence 7
        ⟨[⟨0, 0, none⟩, ⟨1, 1, some 2⟩], [⟨0, 5, some 6⟩], [⟨0, 0, some 4⟩],
          [⟨1, 3, some 1⟩]⟩).ext1 =
      (([⟨0, 0, some 4⟩] : List PersClass).filter (fun c => c.dim == 1)).map (capPair 7) ++
        (([⟨1, 3, some 1⟩] : List PersClass).filter (fun c => c.dim == 1)).map (capPair 7) ∧
    (allPairs (process_extended_persistence 7
        ⟨[⟨0, 0, none⟩, ⟨1, 1, some 2⟩], [⟨0, 5, some 6⟩], [⟨0, 0, some 4⟩],
          [⟨1, 3, some 1⟩]⟩)).length =
      (allClasses ⟨[⟨0, 0, none⟩, ⟨1, 1, some 2⟩], [⟨0, 5, some 6⟩], [⟨0, 0, some 4⟩],
          [⟨1, 3, some 1⟩]⟩).length :=
  claim_c5_bucket_partition 7
    ⟨[⟨0, 0, none⟩, ⟨1, 1, some 2⟩], [⟨0, 5, some 6⟩], [⟨0, 0, some 4⟩], [⟨1, 3, some 1⟩]⟩
    (by decide)

theorem map_getD_lt {α β : Type _} (f : α → β) (l : List α) (i : ℕ)
    (h : i < l.length) (dl : β) (d : α) :
    (l.map f).getD i dl = f (l.getD i d) := by
  rw [List.getD_eq_getElem _ _ (by simpa using h), List.getD_eq_getElem _ _ h]
  simp

/-- Claim C3: the infinity cap is computed per mode exactly as specified —
single-center mode caps at `r_max * 1.5` with `r_max` the maximum of that
request's distance array, while vineyard mode caps at the global maximum
over all centers and points times `1.15`, computed once before the
per-center loop, used unchanged (the same `cap` argument in every iteration
of the fold) and returned as `infinityY`. -/
theorem claim_c3_infinity_caps (sqrtFn : ℚ → ℚ)
    (engine : SimplexTree → Except String EngineOut)
    (c : RawCenter) (cx cy : ℚ) (pts : List RawPoint) (u : Option Bool)
    (coords : List (ℚ × ℚ)) (out : EngineOut)
    (cs : List RawCenter) (centerCoords : List (ℚ × ℚ)) (outs : ℕ → EngineOut)
    (hc : extractXY c.x c.y = .ok (cx, cy))
    (h3 : ¬ pts.length < 3)
    (hpts : extract_coords pts = .ok coords)
    (heng : engine (build_simplex_tree coords
      (compute_distances (u.getD true) sqrtFn coords (cx, cy))
      (group_points pts)) = .ok out)
    (hcs : extract_centers cs = .ok centerCoords)
    (hk : centerCoords ≠ [])
    (hengs : ∀ ci, ci < cs.length →
      engine (build_simplex_tree coords
        ((centerCoords.map (compute_distances (u.getD true) sqrtFn coords)).getD ci [])
        (group_points pts)) = .ok (outs ci)) :
    (compute_persistence sqrtFn engine ⟨some c, some pts, u⟩ =
      .ok (process_extended_persistence
          (listMax (compute_distances (u.getD true) sqrtFn coords (cx, cy)) * (3 / 2)) out)
        (listMin (compute_distances (u.getD true) sqrtFn coords (cx, cy)))
        (listMax (compute_distances (u.getD true) sqrtFn coords (cx, cy)))) ∧
    (compute_vineyard sqrtFn engine ⟨some cs, some pts, u⟩ =
      .ok (vineyardFold
          (listMax ((centerCoords.map
              (compute_distances (u.getD true) sqrtFn coords)).flatten) * (23 / 20))
          outs cs.length)
        (listMax ((centerCoords.map
            (compute_distances (u.getD true) sqrtFn coords)).flatten) * (23 / 20))) :=
  ⟨compute_persistence_ok sqrtFn engine c cx cy pts u coords out hc h3 hpts heng,
   compute_vineyard_ok sqrtFn engine cs pts u centerCoords coords outs hcs hpts h3 hk hengs⟩

/-- Witness for C3 at a concrete three-point, two-center request. -/
theorem claim_c3_infinity_caps_witness :
    (compute_persistence id (fun _ => .ok ⟨[⟨0, 0, none⟩], [], [], []⟩)
      ⟨some ⟨some 0, some 0⟩,
        some [⟨some 1, some 0, none⟩, ⟨some 0, some 1, none⟩, ⟨some 2, some 0, none⟩],
        none⟩ =
      .ok (process_extended_persistence
          (listMax (compute_distances true id
            [((1 : ℚ), (0 : ℚ)), (0, 1), (2, 0)] (0, 0)) * (3 / 2))
          ⟨[⟨0, 0, none⟩], [], [], []⟩)
        (listMin (compute_distances true id
          [((1 : ℚ), (0 : ℚ)), (0, 1), (2, 0)] (0, 0)))
        (listMax (compute_distances true id
          [((1 : ℚ), (0 : ℚ)), (0, 1), (2, 0)] (0, 0)))) ∧
    (compute_vineyard id (fun _ => .ok ⟨[⟨0, 0, none⟩], [], [], []⟩)
      ⟨some [⟨some 0, some 0⟩, ⟨some 2, some 0⟩],
        some [⟨some 1, some 0, none⟩, ⟨some 0, some 1, none⟩, ⟨some 2, some 0, none⟩],
        none⟩ =
      .ok (vineyardFold
          (listMax ((([((0 : ℚ), (0 : ℚ)), (2, 0)] : List (ℚ × ℚ)).map
              (compute_distances true id
                [((1 : ℚ), (0 : ℚ)), (0, 1), (2, 0)])).flatten) * (23 / 20))
          (fun _ => ⟨[⟨0, 0, none⟩], [], [], []⟩) 2)
        (listMax ((([((0 : ℚ), (0 : ℚ)), (2, 0)] : List (ℚ × ℚ)).map
            (compute_distances true id
              [((1 : ℚ), (0 : ℚ)), (0, 1), (2, 0)])).flatten) * (23 / 20))) :=
  claim_c3_infinity_caps id (fun _ => .ok ⟨[⟨0, 0, none⟩], [], [], []⟩)
    ⟨some 0, some 0⟩ 0 0
    [⟨some 1, some 0, none⟩, ⟨some 0, some 1, none⟩, ⟨some 2, some 0, none⟩]
    none [((1 : ℚ), (0 : ℚ)), (0, 1), (2, 0)] ⟨[⟨0, 0, none⟩], [], [], []⟩
    [⟨some 0, some 0⟩, ⟨some 2, some 0⟩] [((0 : ℚ), (0 : ℚ)), (2, 0)]
    (fun _ => ⟨[⟨0, 0, none⟩], [], [], []⟩)
    rfl (by decide) rfl rfl rfl (by decide) (fun ci h => rfl)

/-- Claim C6: in a vineyard request every produced entry carries the 0-based
index of the center that produced it and a type tag in `ord`/`rel`/`ext`;
filtering any bucket down to `centerIdx = ci` recovers exactly the block
produced for center `ci`; projected to bare `(birth, death)` pairs each
block equals the single-center aggregation of the same engine output at the
same cap; the single-center request with the same center, points and metric
produces exactly those classes aggregated with its own `r_max * 1.5` cap
instead of the shared global cap; the two aggregations differ only on
infinite deaths (they agree whenever no class is infinite); and for `k = 3`
centers with nonempty ordinary diagrams, the occurring `centerIdx` values
are exactly `{0, 1, 2}`. -/
theorem claim_c6_vineyard_refinement (sqrtFn : ℚ → ℚ)
    (engine : SimplexTree → Except String EngineOut)
    (cs : List RawCenter) (pts : List RawPoint) (u : Option Bool)
    (centerCoords : List (ℚ × ℚ)) (coords : List (ℚ × ℚ)) (outs : ℕ → EngineOut)
    (hcs : extract_centers cs = .ok centerCoords)
    (hpts : extract_coords pts = .ok coords)
    (h3 : ¬ pts.length < 3)
    (hk : centerCoords ≠ [])
    (heng : ∀ ci, ci < cs.length →
      engine (build_simplex_tree coords
        ((centerCoords.map (compute_distances (u.getD true) sqrtFn coords)).getD ci [])
        (group_points pts)) = .ok (outs ci))
    (gcap : ℚ)
    (hgcap : gcap = listMax ((centerCoords.map
      (compute_distances (u.getD true) sqrtFn coords)).flatten) * (23 / 20)) :
    (compute_vineyard sqrtFn engine ⟨some cs, some pts, u⟩ =
      .ok (vineyardFold gcap outs cs.length) gcap) ∧
    (∀ e ∈ allVEntries (vineyardFold gcap outs cs.length),
      e.centerIdx < cs.length ∧
      (e.type = "ord" ∨ e.type = "rel" ∨ e.type = "ext")) ∧
    (∀ ci, ci < cs.length →
      (vineyardFold gcap outs cs.length).ord0.filter (fun e => e.centerIdx == ci) =
        (centerBuckets gcap ci (outs ci)).ord0 ∧
      (vineyardFold gcap outs cs.length).ord1.filter (fun e => e.centerIdx == ci) =
        (centerBuckets gcap ci (outs ci)).ord1 ∧
      (vineyardFold gcap outs cs.length).rel0.filter (fun e => e.centerIdx == ci) =
        (centerBuckets gcap ci (outs ci)).rel0 ∧
      (vineyardFold gcap outs cs.length).rel1.filter (fun e => e.centerIdx == ci) =
        (centerBuckets gcap ci (outs ci)).rel1 ∧
      (vineyardFold gcap outs cs.length).ext0.filter (fun e => e.centerIdx == ci) =
        (centerBuckets gcap ci (outs ci)).ext0 ∧
      (vineyardFold gcap outs cs.length).ext1.filter (fun e => e.centerIdx == ci) =
        (centerBuckets gcap ci (outs ci)).ext1) ∧
    (∀ (cap2 : ℚ) (ci2 : ℕ) (out2 : EngineOut),
      ((centerBuckets cap2 ci2 out2).ord0.map (fun e => (e.birth, e.death)) =
        (process_extended_persistence cap2 out2).ord0) ∧
      ((centerBuckets cap2 ci2 out2).ord1.map (fun e => (e.birth, e.death)) =
        (process_extended_persistence cap2 out2).ord1) ∧
      ((centerBuckets cap2 ci2 out2).rel0.map (fun e => (e.birth, e.death)) =
        (process_extended_persistence cap2 out2).rel0) ∧
      ((centerBuckets cap2 ci2 out2).rel1.map (fun e => (e.birth, e.death)) =
        (process_extended_persistence cap2 out2).rel1) ∧
      ((centerBuckets cap2 ci2 out2).ext0.map (fun e => (e.birth, e.death)) =
        (process_extended_persistence cap2 out2).ext0) ∧
      ((centerBuckets cap2 ci2 out2).ext1.map (fun e => (e.birth, e.death)) =
        (process_extended_persistence cap2 out2).ext1)) ∧
    (∀ ci, ci < cs.length →
      compute_persistence sqrtFn engine
        ⟨some (cs.getD ci ⟨none, none⟩), some pts, u⟩ =
      .ok (process_extended_persistence
          (listMax (compute_distances (u.getD true) sqrtFn coords
            (centerCoords.getD ci (0, 0))) * (3 / 2)) (outs ci))
        (listMin (compute_distances (u.getD true) sqrtFn coords
          (centerCoords.getD ci (0, 0))))
        (listMax (compute_distances (u.getD true) sqrtFn coords
          (centerCoords.getD ci (0, 0))))) ∧
    (∀ (cap1 cap2 : ℚ) (out2 : EngineOut),
      (∀ cl ∈ allClasses out2, cl.death ≠ none) →
      process_extended_persistence cap1 out2 = process_extended_persistence cap2 out2) ∧
    (cs.length = 3 → (∀ ci, ci < 3 → (outs ci).ordinary ≠ []) →
      ∀ x, (∃ e ∈ allVEntries (vineyardFold gcap outs cs.length),
        e.centerIdx = x) ↔ x < 3) := by
  have hlen : centerCoords.length = cs.length := mapM_except_ok_length _ _ _ hcs
  refine ⟨?_, ?_, ?_, ?_, ?_, ?_, ?_⟩
  · subst hgcap
    exact compute_vineyard_ok sqrtFn engine cs pts u centerCoords coords outs
      hcs hpts h3 hk heng
  · intro e he
    rcases allVEntries_vineyardFold gcap outs cs.length e he with ⟨j, hj, hcb⟩
    rcases centerBuckets_centerIdx_type gcap j (outs j) e hcb with ⟨hci, hty⟩
    exact ⟨by rw [hci]; exact hj, hty⟩
  · intro ci hci
    refine ⟨?_, ?_, ?_, ?_, ?_, ?_⟩
    · rw [vineyardFold_join gcap outs cs.length VBuckets.ord0 (fun a b => rfl) rfl]
      refine filter_flatten_centerIdx _ cs.length ci hci ?_
      intro j hj e he
      exact (centerBuckets_centerIdx_type gcap j (outs j) e
        (mem_allVEntries_of_field _ e (Or.inl he))).1
    · rw [vineyardFold_join gcap outs cs.length VBuckets.ord1 (fun a b => rfl) rfl]
      refine filter_flatten_centerIdx _ cs.length ci hci ?_
      intro j hj e he
      exact (centerBuckets_centerIdx_type gcap j (outs j) e
        (mem_allVEntries_of_field _ e (Or.inr (Or.inl he)))).1
    · rw [vineyardFold_join gcap outs cs.length VBuckets.rel0 (fun a b => rfl) rfl]
      refine filter_flatten_centerIdx _ cs.length ci hci ?_
      intro j hj e he
      exact (centerBuckets_centerIdx_type gcap j (outs j) e
        (mem_allVEntries_of_field _ e (Or.inr (Or.inr (Or.inl he))))).1
    · rw [vineyardFold_join gcap outs cs.length VBuckets.rel1 (fun a b => rfl) rfl]
      refine filter_flatten_centerIdx _ cs.length ci hci ?_
      intro j hj e he
      exact (centerBuckets_centerIdx_type gcap j (outs j) e
        (mem_allVEntries_of_field _ e (Or.inr (Or.inr (Or.inr (Or.inl he)))))).1
    · rw [vineyardFold_join gcap outs cs.length VBuckets.ext0 (fun a b => rfl) rfl]
      refine filter_flatten_centerIdx _ cs.length ci hci ?_
      intro j hj e he
      exact (centerBuckets_centerIdx_type gcap j (outs j) e
        (mem_allVEntries_of_field _ e
          (Or.inr (Or.inr (Or.inr (Or.inr (Or.inl he))))))).1
    · rw [vineyardFold_join gcap outs cs.length VBuckets.ext1 (fun a b => rfl) rfl]
      refine filter_flatten_centerIdx _ cs.length ci hci ?_
      intro j hj e he
      exact (centerBuckets_centerIdx_type gcap j (outs j) e
        (mem_allVEntries_of_field _ e
          (Or.inr (Or.inr (Or.inr (Or.inr (Or.inr he))))))).1
  · intro cap2 ci2 out2
    exact centerBuckets_proj cap2 ci2 out2
  · intro ci hci
    have hci2 : ci < centerCoords.length := by omega
    have hcs2 : cs.mapM (fun c => extractXY c.x c.y) = .ok centerCoords := hcs
    have hget := mapM_except_ok_get (fun c => extractXY c.x c.y) cs centerCoords
      hcs2 ci hci hci2
    have hcd : cs.getD ci ⟨none, none⟩ = cs.get ⟨ci, hci⟩ := by
      rw [List.getD_eq_getElem _ _ hci]
      simp
    have hcc : centerCoords.getD ci (0, 0) = centerCoords.get ⟨ci, hci2⟩ := by
      rw [List.getD_eq_getElem _ _ hci2]
      simp
    have hcx : extractXY (cs.getD ci ⟨none, none⟩).x (cs.getD ci ⟨none, none⟩).y =
        .ok ((centerCoords.getD ci (0, 0)).1, (centerCoords.getD ci (0, 0)).2) := by
      rw [hcd, hcc]
      simpa using hget
    have hrow : (centerCoords.map
        (compute_distances (u.getD true) sqrtFn coords)).getD ci [] =
        compute_distances (u.getD true) sqrtFn coords (centerCoords.getD ci (0, 0)) :=
      map_getD_lt _ _ ci hci2 [] (0, 0)
    have hengci := heng ci hci
    rw [hrow] at hengci
    exact compute_persistence_ok sqrtFn engine (cs.getD ci ⟨none, none⟩)
      (centerCoords.getD ci (0, 0)).1 (centerCoords.getD ci (0, 0)).2 pts u coords
      (outs ci) hcx h3 hpts hengci
  · intro cap1 cap2 out2 h
    exact process_cap_irrelevant cap1 cap2 out2 h
  · intro hlen3 hne x
    have h0 := vineyardFold_centerIdx_iff gcap outs cs.length
      (fun ci hci => hne ci (by omega)) x
    rw [hlen3]
    rw [hlen3] at h0
    exact h0

/-- Witness for C6: three points, three centers, a constant engine. -/
theorem claim_c6_vineyard_refinement_witness :
    (compute_vineyard id (fun _ => .ok ⟨[⟨0, 0, none⟩], [], [], []⟩)
      ⟨some [⟨some 0, some 0⟩, ⟨some 2, some 0⟩, ⟨some 0, some 2⟩],
        some [⟨some 1, some 0, none⟩, ⟨some 0, some 1, none⟩, ⟨some 2, some 0, none⟩],
        none⟩ =
      .ok (vineyardFold (listMax ((([((0 : ℚ), (0 : ℚ)), (2, 0), (0, 2)] : List (ℚ × ℚ)).map
          (compute_distances true id
            [((1 : ℚ), (0 : ℚ)), (0, 1), (2, 0)])).flatten) * (23 / 20)) (fun _ => ⟨[⟨0, 0, none⟩], [], [], []⟩) 3) (listMax ((([((0 : ℚ), (0 : ℚ)), (2, 0), (0, 2)] : List (ℚ × ℚ)).map
          (compute_distances true id
            [((1 : ℚ), (0 : ℚ)), (0, 1), (2, 0)])).flatten) * (23 / 20))) ∧
    (compute_persistence id (fun _ => .ok ⟨[⟨0, 0, none⟩], [], [], []⟩)
      ⟨some ⟨some 0, some 0⟩,
        some [⟨some 1, some 0, none⟩, ⟨some 0, some 1, none⟩, ⟨some 2, some 0, none⟩],
        none⟩ =
      .ok (process_extended_persistence
          (listMax (compute_distances true id
            [((1 : ℚ), (0 : ℚ)), (0, 1), (2, 0)] (0, 0)) * (3 / 2))
          ⟨[⟨0, 0, none⟩], [], [], []⟩)
        (listMin (compute_distances true id
          [((1 : ℚ), (0 : ℚ)), (0, 1), (2, 0)] (0, 0)))
        (listMax (compute_distances true id
          [((1 : ℚ), (0 : ℚ)), (0, 1), (2, 0)] (0, 0)))) ∧
    ((∃ e ∈ allVEntries
        (vineyardFold (listMax ((([((0 : ℚ), (0 : ℚ)), (2, 0), (0, 2)] : List (ℚ × ℚ)).map
          (compute_distances true id
            [((1 : ℚ), (0 : ℚ)), (0, 1), (2, 0)])).flatten) * (23 / 20)) (fun _ => ⟨[⟨0, 0, none⟩], [], [], []⟩) 3),
      e.centerIdx = 1) ↔ 1 < 3) :=
  ⟨(claim_c6_vineyard_refinement id (fun _ => .ok ⟨[⟨0, 0, none⟩], [], [], []⟩)
      [⟨some 0, some 0⟩, ⟨some 2, some 0⟩, ⟨some 0, some 2⟩]
      [⟨some 1, some 0, none⟩, ⟨some 0, some 1, none⟩, ⟨some 2, some 0, none⟩]
      none [((0 : ℚ), (0 : ℚ)), (2, 0), (0, 2)] [((1 : ℚ), (0 : ℚ)), (0, 1), (2, 0)]
      (fun _ => ⟨[⟨0, 0, none⟩], [], [], []⟩)
      rfl rfl (by decide) (by decide) (fun ci h => rfl)
      (listMax ((([((0 : ℚ), (0 : ℚ)), (2, 0), (0, 2)] : List (ℚ × ℚ)).map
          (compute_distances true id
            [((1 : ℚ), (0 : ℚ)), (0, 1), (2, 0)])).flatten) * (23 / 20)) rfl).1,
   (claim_c6_vineyard_refinement id (fun _ => .ok ⟨[⟨0, 0, none⟩], [], [], []⟩)
      [⟨some 0, some 0⟩, ⟨some 2, some 0⟩, ⟨some 0, some 2⟩]
      [⟨some 1, some 0, none⟩, ⟨some 0, some 1, none⟩, ⟨some 2, some 0, none⟩]
      none [((0 : ℚ), (0 : ℚ)), (2, 0), (0, 2)] [((1 : ℚ), (0 : ℚ)), (0, 1), (2, 0)]
      (fun _ => ⟨[⟨0, 0, none⟩], [], [], []⟩)
      rfl rfl (by decide) (by decide) (fun ci h => rfl)
      (listMax ((([((0 : ℚ), (0 : ℚ)), (2, 0), (0, 2)] : List (ℚ × ℚ)).map
          (compute_distances true id
            [((1 : ℚ), (0 : ℚ)), (0, 1), (2, 0)])).flatten) * (23 / 20)) rfl).2.2.2.2.1 0 (by decide),
   (claim_c6_vineyard_refinement id (fun _ => .ok ⟨[⟨0, 0, none⟩], [], [], []⟩)
      [⟨some 0, some 0⟩, ⟨some 2, some 0⟩, ⟨some 0, some 2⟩]
      [⟨some 1, some 0, none⟩, ⟨some 0, some 1, none⟩, ⟨some 2, some 0, none⟩]
      none [((0 : ℚ), (0 : ℚ)), (2, 0), (0, 2)] [((1 : ℚ), (0 : ℚ)), (0, 1), (2, 0)]
      (fun _ => ⟨[⟨0, 0, none⟩], [], [], []⟩)
      rfl rfl (by decide) (by decide) (fun ci h => rfl)
      (listMax ((([((0 : ℚ), (0 : ℚ)), (2, 0), (0, 2)] : List (ℚ × ℚ)).map
          (compute_distances true id
            [((1 : ℚ), (0 : ℚ)), (0, 1), (2, 0)])).flatten) * (23 / 20)) rfl).2.2.2.2.2.2 rfl (fun ci h => by decide) 1⟩

/-- Claim C10: in every vineyard response, within each of the six buckets
the entries appear in nondecreasing `centerIdx` order — centers are
processed sequentially in input order and each center's entries are
appended before the next center is processed. -/
theorem claim_c10_centeridx_sorted (sqrtFn : ℚ → ℚ)
    (engine : SimplexTree → Except String EngineOut)
    (cs : List RawCenter) (pts : List RawPoint) (u : Option Bool)
    (centerCoords : List (ℚ × ℚ)) (coords : List (ℚ × ℚ)) (outs : ℕ → EngineOut)
    (hcs : extract_centers cs = .ok centerCoords)
    (hpts : extract_coords pts = .ok coords)
    (h3 : ¬ pts.length < 3)
    (hk : centerCoords ≠ [])
    (heng : ∀ ci, ci < cs.length →
      engine (build_simplex_tree coords
        ((centerCoords.map (compute_distances (u.getD true) sqrtFn coords)).getD ci [])
        (group_points pts)) = .ok (outs ci))
    (gcap : ℚ)
    (hgcap : gcap = listMax ((centerCoords.map
      (compute_distances (u.getD true) sqrtFn coords)).flatten) * (23 / 20)) :
    (compute_vineyard sqrtFn engine ⟨some cs, some pts, u⟩ =
      .ok (vineyardFold gcap outs cs.length) gcap) ∧
    List.Pairwise (fun a b => a.centerIdx ≤ b.centerIdx)
      (vineyardFold gcap outs cs.length).ord0 ∧
    List.Pairwise (fun a b => a.centerIdx ≤ b.centerIdx)
      (vineyardFold gcap outs cs.length).ord1 ∧
    List.Pairwise (fun a b => a.centerIdx ≤ b.centerIdx)
      (vineyardFold gcap outs cs.length).rel0 ∧
    List.Pairwise (fun a b => a.centerIdx ≤ b.centerIdx)
      (vineyardFold gcap outs cs.length).rel1 ∧
    List.Pairwise (fun a b => a.centerIdx ≤ b.centerIdx)
      (vineyardFold gcap outs cs.length).ext0 ∧
    List.Pairwise (fun a b => a.centerIdx ≤ b.centerIdx)
      (vineyardFold gcap outs cs.length).ext1 := by
  refine ⟨?_, ?_, ?_, ?_, ?_, ?_, ?_⟩
  · subst hgcap
    exact compute_vineyard_ok sqrtFn engine cs pts u centerCoords coords outs
      hcs hpts h3 hk heng
  · rw [vineyardFold_join gcap outs cs.length VBuckets.ord0 (fun a b => rfl) rfl]
    refine flatten_pairwise_centerIdx _ cs.length ?_
    intro j hj e he
    exact (centerBuckets_centerIdx_type gcap j (outs j) e
      (mem_allVEntries_of_field _ e (Or.inl he))).1
  · rw [vineyardFold_join gcap outs cs.length VBuckets.ord1 (fun a b => rfl) rfl]
    refine flatten_pairwise_centerIdx _ cs.length ?_
    intro j hj e he
    exact (centerBuckets_centerIdx_type gcap j (outs j) e
      (mem_allVEntries_of_field _ e (Or.inr (Or.inl he)))).1
  · rw [vineyardFold_join gcap outs cs.length VBuckets.rel0 (fun a b => rfl) rfl]
    refine flatten_pairwise_centerIdx _ cs.length ?_
    intro j hj e he
    exact (centerBuckets_centerIdx_type gcap j (outs j) e
      (mem_allVEntries_of_field _ e (Or.inr (Or.inr (Or.inl he))))).1
  · rw [vineyardFold_join gcap outs cs.length VBuckets.rel1 (fun a b => rfl) rfl]
    refine flatten_pairwise_centerIdx _ cs.length ?_
    intro j hj e he
    exact (centerBuckets_centerIdx_type gcap j (outs j) e
      (mem_allVEntries_of_field _ e (Or.inr (Or.inr (Or.inr (Or.inl he)))))).1
  · rw [vineyardFold_join gcap outs cs.length VBuckets.ext0 (fun a b => rfl) rfl]
    refine flatten_pairwise_centerIdx _ cs.length ?_
    intro j hj e he
    exact (centerBuckets_centerIdx_type gcap j (outs j) e
      (mem_allVEntries_of_field _ e (Or.inr (Or.inr (Or.inr (Or.inr (Or.inl he))))))).1
  · rw [vineyardFold_join gcap outs cs.length VBuckets.ext1 (fun a b => rfl) rfl]
    refine flatten_pairwise_centerIdx _ cs.length ?_
    intro j hj e he
    exact (centerBuckets_centerIdx_type gcap j (outs j) e
      (mem_allVEntries_of_field _ e
        (Or.inr (Or.inr (Or.inr (Or.inr (Or.inr he))))))).1

/-- Witness for C10 at a two-center request: the response equality and the
sortedness of the `ord0` bucket. -/
theorem claim_c10_centeridx_sorted_witness :
    (compute_vineyard id (fun _ => .ok ⟨[⟨0, 0, none⟩], [], [], []⟩)
      ⟨some [⟨some 0, some 0⟩, ⟨some 2, some 0⟩],
        some [⟨some 1, some 0, none⟩, ⟨some 0, some 1, none⟩, ⟨some 2, some 0, none⟩],
        none⟩ =
      .ok (vineyardFold (listMax ((([((0 : ℚ), (0 : ℚ)), (2, 0)] : List (ℚ × ℚ)).map
          (compute_distances true id
            [((1 : ℚ), (0 : ℚ)), (0, 1), (2, 0)])).flatten) * (23 / 20)) (fun _ => ⟨[⟨0, 0, none⟩], [], [], []⟩) 2) (listMax ((([((0 : ℚ), (0 : ℚ)), (2, 0)] : List (ℚ × ℚ)).map
          (compute_distances true id
            [((1 : ℚ), (0 : ℚ)), (0, 1), (2, 0)])).flatten) * (23 / 20))) ∧
    List.Pairwise (fun a b => a.centerIdx ≤ b.centerIdx)
      (vineyardFold (listMax ((([((0 : ℚ), (0 : ℚ)), (2, 0)] : List (ℚ × ℚ)).map
          (compute_distances true id
            [((1 : ℚ), (0 : ℚ)), (0, 1), (2, 0)])).flatten) * (23 / 20)) (fun _ => ⟨[⟨0, 0, none⟩], [], [], []⟩) 2).ord0 :=
  ⟨(claim_c10_centeridx_sorted id (fun _ => .ok ⟨[⟨0, 0, none⟩], [], [], []⟩)
      [⟨some 0, some 0⟩, ⟨some 2, some 0⟩]
      [⟨some 1, some 0, none⟩, ⟨some 0, some 1, none⟩, ⟨some 2, some 0, none⟩]
      none [((0 : ℚ), (0 : ℚ)), (2, 0)] [((1 : ℚ), (0 : ℚ)), (0, 1), (2, 0)]
      (fun _ => ⟨[⟨0, 0, none⟩], [], [], []⟩)
      rfl rfl (by decide) (by decide) (fun ci h => rfl)
      (listMax ((([((0 : ℚ), (0 : ℚ)), (2, 0)] : List (ℚ × ℚ)).map
          (compute_distances true id
            [((1 : ℚ), (0 : ℚ)), (0, 1), (2, 0)])).flatten) * (23 / 20)) rfl).1,
   (claim_c10_centeridx_sorted id (fun _ => .ok ⟨[⟨0, 0, none⟩], [], [], []⟩)
      [⟨some 0, some 0⟩, ⟨some 2, some 0⟩]
      [⟨some 1, some 0, none⟩, ⟨some 0, some 1, none⟩, ⟨some 2, some 0, none⟩]
      none [((0 : ℚ), (0 : ℚ)), (2, 0)] [((1 : ℚ), (0 : ℚ)), (0, 1), (2, 0)]
      (fun _ => ⟨[⟨0, 0, none⟩], [], [], []⟩)
      rfl rfl (by decide) (by decide) (fun ci h => rfl)
      (listMax ((([((0 : ℚ), (0 : ℚ)), (2, 0)] : List (ℚ × ℚ)).map
          (compute_distances true id
            [((1 : ℚ), (0 : ℚ)), (0, 1), (2, 0)])).flatten) * (23 / 20)) rfl).2.1⟩
